import Mathlib

/-!
Shallow embedding of the core of the rhymu8354/WebServer repository:
the chat-room plugin state machine (src/ChatRoomPlugin/src/ChatRoomPlugin.cpp)
and the plugin lifecycle supervisor (src/src/PluginLoader.cpp, src/src/Plugin.cpp).

Modelling conventions:
* Wall-clock values (C++ `double` seconds) are modelled as rationals `ℚ`.
* `std::map< unsigned int, User >` is an association list `List (Nat × User)`
  ordered by key; `std::set< std::string >` is a duplicate-free `List String`
  (the set's lexicographic iteration order is not load-bearing for any claim
  settled here, only membership and cardinality are).
* `User.lastTell` starts at `std::numeric_limits<double>::lowest()`; that
  sentinel is modelled as `Option ℚ` with `none` meaning "never told"
  (the cooldown test always passes for it, as it does for `lowest()`).
* Delegates (function pointers) are modelled as presence flags where only
  null-ness is observable (`diagnosticsAttached`, `PluginRecord.loaded`).
* The pseudo-random generator is modelled by explicit streams of draws:
  `uniform_int_distribution<>(lo, hi)` applied to a raw draw `r` yields
  `lo + r % (hi + 1 - lo)`, which ranges exactly over `[lo, hi]`.
-/

namespace WebServer

/-- One user (session) of the chat room, from `struct User` in
ChatRoomPlugin.cpp.  The WebSocket handle and the diagnostics
unsubscribe delegate are not modelled; `open` is renamed `wsOpen`
(keyword clash). -/
structure User where
  nickname : String
  wsOpen : Bool
  lastTell : Option ℚ
  points : Int
deriving DecidableEq

/-- The fresh value a default-constructed `User` takes in C++. -/
def newUser : User :=
  { nickname := "", wsOpen := true, lastTell := none, points := 0 }

/-- Outbound chat-room message payloads (the JSON objects built by the
handlers in ChatRoomPlugin.cpp; the `Time` stamp added by `SendToUser`
comes from the external time keeper and is not modelled). -/
inductive Msg where
  | setNickNameResult (success : Bool)
  | join (nickName : String)
  | leave (nickName : String)
  | nickNames (names : List String)
  | availableNickNames (names : List String)
  | usersList (entries : List (String × Int))
  | tell (sender : String) (text : String)
  | award (subject : String) (points : Int)
  | penalty (subject : String) (points : Int)
deriving DecidableEq

/-- One outbound send: either a fan-out over a snapshot of the session
table (`SendToAll` / `SendTell`, recording the session ids of the
snapshot) or a reply on one session's socket (`SendToUser`). -/
inductive Event where
  | broadcast (recipients : List Nat) (msg : Msg)
  | direct (sid : Nat) (msg : Msg)
deriving DecidableEq

/-- Session ids of a session table, in table order. -/
def ids (l : List (Nat × User)) : List Nat := l.map (fun p => p.1)

/-- The messages a given session observes from a list of events, in
order: broadcasts whose snapshot contains it plus replies directed
at it. -/
def observedBy (sid : Nat) : List Event → List Msg
  | [] => []
  | Event.broadcast recips m :: rest =>
      if sid ∈ recips then m :: observedBy sid rest else observedBy sid rest
  | Event.direct s m :: rest =>
      if s = sid then m :: observedBy sid rest else observedBy sid rest

/-- Lookup in the session table (`users.find(sessionId)`). -/
def findUser : List (Nat × User) → Nat → Option User
  | [], _ => none
  | (k, v) :: rest, sid => if k = sid then some v else findUser rest sid

/-- Overwrite the value stored under a session id
(mutation through a `std::map` iterator). -/
def setUser (l : List (Nat × User)) (sid : Nat) (u : User) : List (Nat × User) :=
  l.map (fun p => if p.1 = sid then (sid, u) else p)

/-- Remove the entry of a session id (`users.erase`). -/
def eraseUser (l : List (Nat × User)) (sid : Nat) : List (Nat × User) :=
  l.filter (fun p => decide (p.1 ≠ sid))

/-- Key-ordered default-insert, as `users[sessionId]` behaves on a
`std::map`: a fresh key gets a default-constructed `User` in key order;
an existing key keeps its value. -/
def insertFresh : List (Nat × User) → Nat → List (Nat × User)
  | [], sid => [(sid, newUser)]
  | (k, v) :: rest, sid =>
      if sid < k then (sid, newUser) :: (k, v) :: rest
      else if sid = k then (k, v) :: rest
      else (k, v) :: insertFresh rest sid

/-- Insert into the nickname pool (`std::set::insert`): no effect when
already present. -/
def poolInsert (n : String) (pool : List String) : List String :=
  if n ∈ pool then pool else n :: pool

/-- Lookup in the `initialPoints` map; `std::map::operator[]`
default-constructs a `0` entry for an absent nickname, so the observable
value is the stored one or `0`. -/
def lookupPoints : List (String × Int) → String → Int
  | [], _ => 0
  | (k, v) :: rest, n => if k = n then v else lookupPoints rest n

/-- Per-user contribution to the list of held (non-empty) nicknames. -/
def contrib (u : User) : List String :=
  if u.nickname = "" then [] else [u.nickname]

/-- All non-empty nicknames currently held by sessions in the table,
in table order. -/
def held : List (Nat × User) → List String
  | [] => []
  | p :: rest => contrib p.2 ++ held rest

/-- The state of the chat room, from `struct Room` in ChatRoomPlugin.cpp.
The mutex, condition variables, worker-thread handle and server pointer
are not modelled; `diagnosticMessageDelegate` is modelled by the flag
`diagnosticsAttached` (only its null-ness is observable in the claims). -/
structure RoomState where
  diagnosticsAttached : Bool
  tellTimeout : ℚ
  availableNickNames : List String
  initialPoints : List (String × Int)
  users : List (Nat × User)
  usersHaveClosed : Bool
  nextSessionId : Nat
  answeredCorrectly : Bool
  nextQuestionTime : ℚ
  minQuestionCooldown : ℚ
  maxQuestionCooldown : ℚ
  questionComponents : List Nat
  question : String
  answer : String
deriving DecidableEq

/-- The file-scope `room` object as initialized by the C++ field
initializers (before `LoadPlugin` runs). -/
def freshRoom : RoomState :=
  { diagnosticsAttached := false
    tellTimeout := 1
    availableNickNames := []
    initialPoints := []
    users := []
    usersHaveClosed := false
    nextSessionId := 1
    answeredCorrectly := true
    nextQuestionTime := 0
    minQuestionCooldown := 10
    maxQuestionCooldown := 30
    questionComponents := []
    question := ""
    answer := "" }

/-- Room::SetNickName from ChatRoomPlugin.cpp (lines 419-488), for the
session `sid` whose current entry is `u`.  The emitted events appear in
the order the C++ sends them; every `SendToAll` snapshot in this handler
has the same session-id set, since the handler never adds or removes
table entries. -/
def setNickName (room : RoomState) (sid : Nat) (u : User) (newNickname : String) :
    RoomState × List Event :=
  let oldNickname := u.nickname
  let recipients := ids room.users
  if newNickname = "" then
    let users1 := setUser room.users sid { u with nickname := "" }
    if oldNickname = "" then
      ({ room with users := users1 },
       [Event.direct sid (Msg.setNickNameResult true)])
    else
      ({ room with
          users := users1,
          availableNickNames := poolInsert oldNickname room.availableNickNames },
       [Event.broadcast recipients (Msg.leave oldNickname),
        Event.direct sid (Msg.setNickNameResult true)])
  else if oldNickname = newNickname then
    (room, [Event.direct sid (Msg.setNickNameResult true)])
  else if newNickname ∈ room.availableNickNames then
    let pool1 := room.availableNickNames.erase newNickname
    let u1 := { u with
                nickname := newNickname,
                points := lookupPoints room.initialPoints newNickname }
    let users1 := setUser room.users sid u1
    if oldNickname = "" then
      ({ room with users := users1, availableNickNames := pool1 },
       [Event.broadcast recipients (Msg.join newNickname),
        Event.direct sid (Msg.setNickNameResult true)])
    else
      ({ room with
          users := users1,
          availableNickNames := poolInsert oldNickname pool1 },
       [Event.broadcast recipients (Msg.leave oldNickname),
        Event.broadcast recipients (Msg.join newNickname),
        Event.direct sid (Msg.setNickNameResult true)])
  else
    (room, [Event.direct sid (Msg.setNickNameResult false)])

/-- Dispatch of a SetNickName frame through Room::ReceiveMessage (which
drops frames from unknown session ids). -/
def receiveSetNickName (room : RoomState) (sid : Nat) (newNickname : String) :
    RoomState × List Event :=
  match findUser room.users sid with
  | none => (room, [])
  | some u => setNickName room sid u newNickname

/-- Modelled from the spec: the external integer parser
`SystemAbstractions::ToInteger` (not part of this repository) accepts
exactly the non-empty strings that parse as a signed decimal integer. -/
def parsesAsSignedInteger (s : String) : Bool :=
  match s.data with
  | [] => false
  | '-' :: rest => rest ≠ [] && rest.all Char.isDigit
  | cs => cs.all Char.isDigit

/-- Tell cooldown rejection test, `now - lastTell < tellTimeout` from
Room::Tell; `none` models the `lowest()` sentinel, for which the
subtraction is astronomically large and the test never rejects. -/
def tellTooSoon (u : User) (now timeout : ℚ) : Bool :=
  match u.lastTell with
  | none => false
  | some t => decide (now - t < timeout)

/-- Room::Tell from ChatRoomPlugin.cpp (lines 534-580), for the session
`sid` whose current entry is `u`, at time `now`. -/
def tellStep (room : RoomState) (sid : Nat) (u : User) (now : ℚ) (text : String) :
    RoomState × List Event :=
  if u.nickname = "" then (room, [])
  else if tellTooSoon u now room.tellTimeout then (room, [])
  else if text = "" then (room, [])
  else if parsesAsSignedInteger text then
    let u1 := { u with lastTell := some now }
    let users1 := setUser room.users sid u1
    let recipients := ids users1
    let tellEv := Event.broadcast recipients (Msg.tell u.nickname text)
    if room.answeredCorrectly then
      ({ room with users := users1 }, [tellEv])
    else if text = room.answer then
      let u2 := { u1 with points := u1.points + 1 }
      ({ room with users := setUser users1 sid u2, answeredCorrectly := true },
       [tellEv, Event.broadcast recipients (Msg.award u.nickname u2.points)])
    else
      let u2 := { u1 with points := u1.points - 1 }
      ({ room with users := setUser users1 sid u2 },
       [tellEv, Event.broadcast recipients (Msg.penalty u.nickname u2.points)])
  else (room, [])

/-- Dispatch of a Tell frame through Room::ReceiveMessage. -/
def receiveTell (room : RoomState) (sid : Nat) (now : ℚ) (text : String) :
    RoomState × List Event :=
  match findUser room.users sid with
  | none => (room, [])
  | some u => tellStep room sid u now text

/-- Room::GetNickNames response payload: the set of non-empty nicknames
of table entries (the `std::set` deduplicates; its lexicographic order
is not modelled, membership is what the claims use). -/
def getNickNamesMsg (room : RoomState) : Msg :=
  Msg.nickNames (held room.users).dedup

/-- Room::GetUsers response payload: nickname and points of every
non-lurker, in session-id (table) order. -/
def getUsersMsg (room : RoomState) : Msg :=
  Msg.usersList
    ((room.users.filter (fun p => decide (p.2.nickname ≠ ""))).map
      (fun p => (p.2.nickname, p.2.points)))

/-- Room::RemoveUser (lines 688-702): mark the session closed and flag
the housekeeper; the table row itself is untouched. -/
def removeUser (room : RoomState) (sid : Nat) : RoomState :=
  match findUser room.users sid with
  | none => room
  | some u =>
      { room with
        users := setUser room.users sid { u with wsOpen := false },
        usersHaveClosed := true }

/-- The reaping loop of Room::Worker (lines 347-379): walk the table in
key order; keep open rows; erase closed rows, and for a closed row with
a non-empty nickname return it to the pool and broadcast Leave to the
snapshot taken after the erase (`kept ++ rest`). -/
def reapLoop (kept pending : List (Nat × User)) (pool : List String) :
    List (Nat × User) × List String × List Event :=
  match pending with
  | [] => (kept, pool, [])
  | (sid, u) :: rest =>
      if u.wsOpen then reapLoop (kept ++ [(sid, u)]) rest pool
      else if u.nickname = "" then reapLoop kept rest pool
      else
        let ev := Event.broadcast (ids (kept ++ rest)) (Msg.leave u.nickname)
        let r := reapLoop kept rest (poolInsert u.nickname pool)
        (r.1, r.2.1, ev :: r.2.2)

/-- One close-reaping pass of the housekeeper: runs only when
`usersHaveClosed` is set, and clears the flag afterwards. -/
def reapPass (room : RoomState) : RoomState × List Event :=
  if room.usersHaveClosed then
    let r := reapLoop [] room.users room.availableNickNames
    ({ room with
        users := r.1,
        availableNickNames := r.2.1,
        usersHaveClosed := false }, r.2.2)
  else (room, [])

/-- Room::AddUser (lines 724-776): always consumes `nextSessionId++`;
on WebSocket upgrade failure the just-created entry is erased and the
plain-text consolation body returned. -/
def addUser (room : RoomState) (upgradeOk : Bool) : RoomState × Option String :=
  let sid := room.nextSessionId
  let users1 := insertFresh room.users sid
  let room1 := { room with users := users1, nextSessionId := sid + 1 }
  if upgradeOk then (room1, none)
  else ({ room1 with users := eraseUser users1 sid },
        some "Try again, but next time use a WebSocket.  Kthxbye!")

/-- The plugin's unload delegate (ChatRoomPlugin.cpp lines 884-894):
clear the session table and flags, reset the session counter, drop the
diagnostics delegate, and clear (not refill) the nickname pool. -/
def unloadRoom (room : RoomState) : RoomState :=
  { room with
    users := [],
    usersHaveClosed := false,
    answeredCorrectly := true,
    nextSessionId := 1,
    diagnosticsAttached := false,
    availableNickNames := [] }

/-- Draw of `uniform_int_distribution<>(lo, hi)` from one raw generator
value: a result in `[lo, hi]` (requires `lo ≤ hi`). -/
def drawInt (lo hi r : Nat) : Nat := lo + r % (hi + 1 - lo)

/-- The question text `"What is %d * %d + %d?"`. -/
def questionText (a b c : Nat) : String :=
  "What is " ++ toString a ++ " * " ++ toString b ++ " + " ++ toString c ++ "?"

/-- The answer text `"%d"` of `a*b+c`. -/
def answerText (a b c : Nat) : String := toString (a * b + c)

/-- The do-while sampling loop of Room::Worker (lines 383-398): draw
`(a, b, c)` from `[2,10] × [2,10] × [2,97]` until the answer differs
from the previous answer.  The generator is modelled as an explicit
list of raw triples; an exhausted list (which the repeating hardware
generator never produces) yields `none`. -/
def sampleQuestion (lastAnswer : String) : List (Nat × Nat × Nat) → Option (Nat × Nat × Nat)
  | [] => none
  | (r1, r2, r3) :: rest =>
      let a := drawInt 2 10 r1
      let b := drawInt 2 10 r2
      let c := drawInt 2 97 r3
      if answerText a b c = lastAnswer then sampleQuestion lastAnswer rest
      else some (a, b, c)

/-- Draw of `uniform_real_distribution<>(lo, hi)` from one raw draw
`q`, modelled as `lo + (hi - lo) * clamp01 q`: a result in `[lo, hi]`
whenever `lo ≤ hi`. -/
def drawReal (lo hi q : ℚ) : ℚ := lo + (hi - lo) * (max 0 (min 1 q))

/-- Room::CooldownNextQuestion: advance `nextQuestionTime` by a cooldown
drawn from `[minQuestionCooldown, maxQuestionCooldown]`. -/
def cooldownNextQuestion (room : RoomState) (q : ℚ) : RoomState :=
  { room with
    nextQuestionTime :=
      room.nextQuestionTime +
        drawReal room.minQuestionCooldown room.maxQuestionCooldown q }

/-- The question-posting step of Room::Worker (lines 381-405), taken
when `now ≥ nextQuestionTime`: sample fresh components, derive question
and answer, clear `answeredCorrectly`, cool down the next question time,
and broadcast the question as a Tell from MathBot2000 (snapshotting the
session table). -/
def postQuestion (room : RoomState) (raws : List (Nat × Nat × Nat)) (q : ℚ) :
    Option (RoomState × List Event) :=
  match sampleQuestion room.answer raws with
  | none => none
  | some (a, b, c) =>
      let room1 := { room with
                     questionComponents := [a, b, c],
                     question := questionText a b c,
                     answer := answerText a b c,
                     answeredCorrectly := false }
      let room2 := cooldownNextQuestion room1 q
      some (room2,
        [Event.broadcast (ids room2.users) (Msg.tell "MathBot2000" room2.question)])

/-- Configuration items the chat-room plugin reads (ChatRoomPlugin.cpp
LoadPlugin, lines 829-866); absent numeric items leave the defaults. -/
structure ChatRoomConfig where
  nicknames : List String
  initialPoints : List (String × Int)
  tellTimeout : Option ℚ
  minCoolDown : Option ℚ
  maxCoolDown : Option ℚ

/-- The configuration-binding part of the plugin entry point LoadPlugin
(lines 829-871): insert configured nicknames into the pool, bind the
cooldown range (swapping when min > max), initial points, tell timeout,
and attach the diagnostics delegate. -/
def loadRoom (room : RoomState) (cfg : ChatRoomConfig) : RoomState :=
  let room := { room with
                availableNickNames :=
                  cfg.nicknames.foldl (fun p n => poolInsert n p) room.availableNickNames }
  let room := match cfg.minCoolDown with
              | none => room
              | some m => { room with minQuestionCooldown := m }
  let room := match cfg.maxCoolDown with
              | none => room
              | some m => { room with maxQuestionCooldown := m }
  let room := if room.maxQuestionCooldown < room.minQuestionCooldown then
                { room with
                  minQuestionCooldown := room.maxQuestionCooldown,
                  maxQuestionCooldown := room.minQuestionCooldown }
              else room
  let room := { room with
                initialPoints := room.initialPoints ++ cfg.initialPoints }
  let room := match cfg.tellTimeout with
              | none => room
              | some t => { room with tellTimeout := t }
  { room with diagnosticsAttached := true }

/-- One externally driven chat-room operation, for stating invariants
over arbitrary interleavings of the message handlers, session admission,
close observation and reaper passes. -/
inductive RoomOp where
  | setNick (sid : Nat) (newNickname : String)
  | sendTell (sid : Nat) (now : ℚ) (text : String)
  | connect (upgradeOk : Bool)
  | close (sid : Nat)
  | reap

/-- Apply one operation to the room (events discarded). -/
def stepRoom (room : RoomState) : RoomOp → RoomState
  | RoomOp.setNick sid n => (receiveSetNickName room sid n).1
  | RoomOp.sendTell sid now t => (receiveTell room sid now t).1
  | RoomOp.connect ok => (addUser room ok).1
  | RoomOp.close sid => removeUser room sid
  | RoomOp.reap => (reapPass room).1

/-- Run a sequence of operations. -/
def runRoom (room : RoomState) (ops : List RoomOp) : RoomState :=
  ops.foldl stepRoom room

/-- A room as it stands right after load with nickname pool `nicknames`
and an empty session table. -/
def initialRoom (nicknames : List String) : RoomState :=
  { freshRoom with availableNickNames := nicknames, diagnosticsAttached := true }

/-! Plugin lifecycle supervisor (src/src/Plugin.cpp, src/src/PluginLoader.cpp). -/

/-- Bookkeeping for one plugin (struct Plugin).  `loaded` models
`unloadDelegate != nullptr`; `runtimeFileExists` tracks the runtime
copy on disk; `imageExists`/`imageMtime` model the image file the
supervisor stats.  Plugin.hpp declares the eligibility flag as
`loadable = true` while the implementation calls it `needsLoading`;
it is one field here, named `needsLoading`, initially true. -/
structure PluginRecord where
  imageExists : Bool
  imageMtime : Int
  lastModifiedTime : Int
  needsLoading : Bool
  loaded : Bool
  runtimeFileExists : Bool
deriving DecidableEq

/-- How one attempt at Plugin::Load resolves in the environment: the
image copy fails, the dynamic link fails, the `LoadPlugin` symbol is
missing, the entry point leaves the unload delegate null, or everything
succeeds. -/
inductive LoadOutcome where
  | copyFail
  | linkFail
  | noSymbol
  | entryNull
  | success
deriving DecidableEq

/-- Plugin::Load (Plugin.cpp lines 23-123).  A copy failure changes
nothing (warning only).  Link failure, missing symbol and null unload
delegate each clear `needsLoading` and destroy the runtime file (the
library, when linked, is unlinked again).  Success leaves the record
loaded with the runtime file in place. -/
def pluginLoad (p : PluginRecord) (o : LoadOutcome) : PluginRecord :=
  match o with
  | LoadOutcome.copyFail => p
  | LoadOutcome.linkFail =>
      { p with runtimeFileExists := false, needsLoading := false }
  | LoadOutcome.noSymbol =>
      { p with runtimeFileExists := false, needsLoading := false }
  | LoadOutcome.entryNull =>
      { p with runtimeFileExists := false, needsLoading := false }
  | LoadOutcome.success =>
      { p with runtimeFileExists := true, loaded := true }

/-- Actions one Scan pass performs on a record, in order. -/
inductive ScanAction where
  | load
deriving DecidableEq

/-- The per-record body of PluginLoader::Impl::Scan (PluginLoader.cpp
lines 119-156): skip records whose image is missing, skip records that
are currently loaded, pick up an image-mtime change on an unloaded
record by marking it as needing loading, and load a record that needs
loading, requesting another pass (the returned flag) when the load came
back with a null unload delegate while still needing loading (the copy
failure case). -/
def scanRecord (p : PluginRecord) (o : LoadOutcome) :
    PluginRecord × Bool × List ScanAction :=
  if p.imageExists = false then (p, false, [])
  else if p.loaded then (p, false, [])
  else
    let p1 := if p.needsLoading = false ∧ p.lastModifiedTime ≠ p.imageMtime then
                { p with needsLoading := true, lastModifiedTime := p.imageMtime }
              else p
    if p1.needsLoading then
      let p2 := pluginLoad p1 o
      (p2, p2.loaded = false ∧ p2.needsLoading, [ScanAction.load])
    else (p1, false, [])

/-- A whole Scan pass over the record list in stable order; the flag is
the disjunction of the per-record retry requests (`scan = true`). -/
def scanOnce : List (PluginRecord × LoadOutcome) →
    List PluginRecord × Bool × List ScanAction
  | [] => ([], false, [])
  | (p, o) :: rest =>
      let r := scanRecord p o
      let rs := scanOnce rest
      (r.1 :: rs.1, (r.2.1 || rs.2.1), r.2.2 ++ rs.2.2)

/-- The session-id snapshot a `SendToAll` fan-out takes: every entry of
the current session table, open or closed. -/
def broadcastRecipients (room : RoomState) : List Nat := ids room.users

/-! Helper lemmas about the container model. -/

theorem ids_append (a b : List (Nat × User)) : ids (a ++ b) = ids a ++ ids b :=
  List.map_append _ a b

theorem held_append (a b : List (Nat × User)) : held (a ++ b) = held a ++ held b := by
  induction a with
  | nil => rfl
  | cons p rest ih => simp [held, ih, List.append_assoc]

theorem held_cons (p : Nat × User) (l : List (Nat × User)) :
    held (p :: l) = contrib p.2 ++ held l := rfl

theorem ids_setUser (l : List (Nat × User)) (sid : Nat) (u : User) :
    ids (setUser l sid u) = ids l := by
  induction l with
  | nil => rfl
  | cons p rest ih =>
      show (if p.1 = sid then (sid, u) else p).1 :: ids (setUser rest sid u) =
        p.1 :: ids rest
      by_cases h : p.1 = sid
      · rw [if_pos h, ih, h]
      · rw [if_neg h, ih]

theorem setUser_of_not_mem (l : List (Nat × User)) (sid : Nat) (u : User)
    (h : ∀ p ∈ l, p.1 ≠ sid) : setUser l sid u = l := by
  induction l with
  | nil => rfl
  | cons p rest ih =>
      show (if p.1 = sid then (sid, u) else p) :: setUser rest sid u = p :: rest
      rw [if_neg (h p (List.mem_cons_self p rest))]
      rw [ih (fun q hq => h q (List.mem_cons_of_mem p hq))]

/-- Decomposition of a session table at a found key, assuming the keys
are duplicate-free: the table splits around the entry and `setUser`
rewrites exactly that entry. -/
theorem findUser_decomp (l : List (Nat × User)) (sid : Nat) (u : User)
    (hfind : findUser l sid = some u) (hnodup : (ids l).Nodup) :
    ∃ l₁ l₂, l = l₁ ++ (sid, u) :: l₂ ∧
      (∀ p ∈ l₁, p.1 ≠ sid) ∧ (∀ p ∈ l₂, p.1 ≠ sid) ∧
      ∀ u2, setUser l sid u2 = l₁ ++ (sid, u2) :: l₂ := by
  induction l with
  | nil => simp [findUser] at hfind
  | cons p rest ih =>
      obtain ⟨k, v⟩ := p
      have hnodup2 : (k :: ids rest).Nodup := hnodup
      rcases List.nodup_cons.mp hnodup2 with ⟨hhead, htail⟩
      by_cases h : k = sid
      · subst h
        have hv : v = u := by
          have : (if k = k then some v else findUser rest k) = some u := hfind
          rw [if_pos rfl] at this
          exact Option.some.injEq v u ▸ this.symm ▸ rfl
        subst hv
        have hrest : ∀ p ∈ rest, p.1 ≠ k := by
          intro q hq hq1
          exact hhead (hq1 ▸ List.mem_map_of_mem (fun r => r.1) hq)
        refine ⟨[], rest, rfl, by simp, hrest, ?_⟩
        intro u2
        show (if k = k then (k, u2) else (k, v)) :: setUser rest k u2 =
          [] ++ (k, u2) :: rest
        rw [if_pos rfl, setUser_of_not_mem rest k u2 hrest]
        rfl
      · have hfind2 : findUser rest sid = some u := by
          have : (if k = sid then some v else findUser rest sid) = some u := hfind
          rwa [if_neg h] at this
        rcases ih hfind2 htail with ⟨l₁, l₂, heq, h1, h2, hset⟩
        refine ⟨(k, v) :: l₁, l₂, by rw [heq]; rfl, ?_, h2, ?_⟩
        · intro q hq
          rcases List.mem_cons.mp hq with rfl | hq2
          · exact h
          · exact h1 q hq2
        · intro u2
          show (if k = sid then (sid, u2) else (k, v)) :: setUser rest sid u2 =
            ((k, v) :: l₁) ++ (sid, u2) :: l₂
          rw [if_neg h, hset u2]
          rfl

theorem findUser_setUser (l : List (Nat × User)) (sid : Nat) (u u2 : User)
    (hfind : findUser l sid = some u) :
    findUser (setUser l sid u2) sid = some u2 := by
  induction l with
  | nil => simp [findUser] at hfind
  | cons p rest ih =>
      obtain ⟨k, v⟩ := p
      by_cases h : k = sid
      · show findUser ((if k = sid then (sid, u2) else (k, v)) :: setUser rest sid u2) sid =
          some u2
        rw [if_pos h]
        show (if sid = sid then some u2 else findUser (setUser rest sid u2) sid) = some u2
        rw [if_pos rfl]
      · show findUser ((if k = sid then (sid, u2) else (k, v)) :: setUser rest sid u2) sid =
          some u2
        rw [if_neg h]
        show (if k = sid then some v else findUser (setUser rest sid u2) sid) = some u2
        rw [if_neg h]
        have hfind2 : findUser rest sid = some u := by
          have : (if k = sid then some v else findUser rest sid) = some u := hfind
          rwa [if_neg h] at this
        exact ih hfind2

theorem findUser_mem (l : List (Nat × User)) (sid : Nat) (u : User)
    (hfind : findUser l sid = some u) : (sid, u) ∈ l := by
  induction l with
  | nil => simp [findUser] at hfind
  | cons p rest ih =>
      cases p with
      | mk k v =>
          simp only [findUser] at hfind
          by_cases h : k = sid
          · rw [if_pos h] at hfind
            simp only [Option.some.injEq] at hfind
            exact List.mem_cons.mpr (Or.inl (by rw [h, hfind]))
          · rw [if_neg h] at hfind
            exact List.mem_cons.mpr (Or.inr (ih hfind))

theorem mem_ids_of_findUser (l : List (Nat × User)) (sid : Nat) (u : User)
    (hfind : findUser l sid = some u) : sid ∈ ids l :=
  List.mem_map_of_mem (fun p => p.1) (findUser_mem l sid u hfind)

theorem mem_poolInsert (n m : String) (pool : List String) :
    n ∈ poolInsert m pool ↔ n = m ∨ n ∈ pool := by
  unfold poolInsert
  by_cases h : m ∈ pool
  · rw [if_pos h]
    constructor
    · exact Or.inr
    · rintro (rfl | hn)
      · exact h
      · exact hn
  · rw [if_neg h]
    exact List.mem_cons

theorem poolInsert_of_not_mem (n : String) (pool : List String) (h : n ∉ pool) :
    poolInsert n pool = n :: pool := if_neg h

/-- With all existing keys below the new one (the `nextSessionId`
allocation invariant), the key-ordered default-insert appends. -/
theorem insertFresh_append (l : List (Nat × User)) (sid : Nat)
    (h : ∀ k ∈ ids l, k < sid) : insertFresh l sid = l ++ [(sid, newUser)] := by
  induction l with
  | nil => rfl
  | cons p rest ih =>
      cases p with
      | mk k v =>
          have hk : k < sid := h k (by simp [ids])
          simp only [insertFresh]
          rw [if_neg (by omega), if_neg (by omega)]
          rw [ih (fun k2 hk2 => h k2 (by simp [ids] at hk2 ⊢; exact Or.inr hk2))]
          rfl

theorem eraseUser_append_self (l : List (Nat × User)) (sid : Nat) (u : User)
    (h : ∀ k ∈ ids l, k ≠ sid) : eraseUser (l ++ [(sid, u)]) sid = l := by
  induction l with
  | nil => simp [eraseUser]
  | cons p rest ih =>
      cases p with
      | mk k v =>
          have hk : k ≠ sid := h k (by simp [ids])
          simp only [eraseUser, List.cons_append, List.filter_cons]
          rw [if_pos (by simpa using hk)]
          have := ih (fun k2 hk2 => h k2 (by simp [ids] at hk2 ⊢; exact Or.inr hk2))
          simp only [eraseUser] at this
          rw [this]

/-! Claims about the plugin supervisor. -/

/-- A record that is currently loaded while its image mtime has moved
past the recorded `lastModifiedTime`. -/
def loadedChangedRecord : PluginRecord :=
  { imageExists := true, imageMtime := 5, lastModifiedTime := 3,
    needsLoading := false, loaded := true, runtimeFileExists := true }

/-- C1 counterexample: a record that is loaded and whose image mtime
differs from `lastModifiedTime` is left completely untouched by a Scan
pass (no Unload, no load, `lastModifiedTime` not updated), because Scan
skips every record with a non-null unload delegate. -/
theorem scan_skips_loaded_counterexample :
    loadedChangedRecord.loaded = true ∧
    loadedChangedRecord.imageMtime ≠ loadedChangedRecord.lastModifiedTime ∧
    scanRecord loadedChangedRecord LoadOutcome.success =
      (loadedChangedRecord, false, []) := by
  refine ⟨rfl, by decide, ?_⟩
  rfl

/-- C1 (amended): a Scan pass never unloads or reloads a currently
loaded record; any record whose unload delegate is non-null is skipped
unchanged, whether or not its image mtime differs from
`lastModifiedTime`, so in particular a loaded record with an unchanged
mtime is never unloaded or reloaded.  Change detection and loading apply
only to records that are not currently loaded. -/
theorem scanRecord_skips_loaded (p : PluginRecord) (o : LoadOutcome)
    (himg : p.imageExists = true) (hloaded : p.loaded = true) :
    scanRecord p o = (p, false, []) := by
  unfold scanRecord
  rw [himg, hloaded]
  rfl

/-- C1 witness: the amended theorem applied to the concrete loaded
record with a changed mtime. -/
theorem scanRecord_skips_loaded_witness :
    scanRecord loadedChangedRecord LoadOutcome.success =
      (loadedChangedRecord, false, []) :=
  scanRecord_skips_loaded loadedChangedRecord LoadOutcome.success rfl rfl

/-- C8: the plugin load failure model.  A copy failure changes nothing
on the record (the unload delegate stays null, `needsLoading` stays
set), and a Scan pass over such a record raises the supervisor's re-scan
flag while keeping the record eligible.  Link failure, missing
`LoadPlugin` symbol, and a null unload delegate each pin the record
(`needsLoading` cleared) and delete the runtime file.  A pinned unloaded
record is untouched by Scan while its image mtime equals
`lastModifiedTime`, and the first pass that sees a different mtime
clears the pin, refreshes `lastModifiedTime`, and performs a load. -/
theorem plugin_failure_model :
    (∀ p, pluginLoad p LoadOutcome.copyFail = p) ∧
    (∀ p, p.imageExists = true → p.loaded = false → p.needsLoading = true →
      scanRecord p LoadOutcome.copyFail = (p, true, [ScanAction.load])) ∧
    (∀ p o, (o = LoadOutcome.linkFail ∨ o = LoadOutcome.noSymbol ∨ o = LoadOutcome.entryNull) →
      pluginLoad p o = { p with runtimeFileExists := false, needsLoading := false }) ∧
    (∀ p o, p.imageExists = true → p.loaded = false → p.needsLoading = false →
      p.imageMtime = p.lastModifiedTime → scanRecord p o = (p, false, [])) ∧
    (∀ p o, p.imageExists = true → p.loaded = false → p.needsLoading = false →
      p.imageMtime ≠ p.lastModifiedTime →
      (scanRecord p o).1 =
        pluginLoad { p with needsLoading := true, lastModifiedTime := p.imageMtime } o ∧
      (scanRecord p o).2.2 = [ScanAction.load]) := by
  refine ⟨fun p => rfl, ?_, ?_, ?_, ?_⟩
  · intro p himg hl hn
    unfold scanRecord
    rw [himg, hl]
    simp [hn, pluginLoad, hl]
  · rintro p o (rfl | rfl | rfl) <;> rfl
  · intro p o himg hl hn hm
    unfold scanRecord
    rw [himg, hl]
    simp [hn, hm.symm]
  · intro p o himg hl hn hm
    unfold scanRecord
    rw [himg, hl]
    simp [hn, Ne.symm hm]

/-- An unloaded record that needs loading (as after a first failed
copy). -/
def retryingRecord : PluginRecord :=
  { imageExists := true, imageMtime := 7, lastModifiedTime := 7,
    needsLoading := true, loaded := false, runtimeFileExists := false }

/-- A pinned record (fatal load failure recorded) whose image has not
changed since. -/
def pinnedRecord : PluginRecord :=
  { imageExists := true, imageMtime := 7, lastModifiedTime := 7,
    needsLoading := false, loaded := false, runtimeFileExists := false }

/-- C8 witness: the failure-model theorem applied to concrete records:
a copy failure requests a retry pass, and a pinned record with an
unchanged image is skipped. -/
theorem plugin_failure_model_witness :
    scanRecord retryingRecord LoadOutcome.copyFail =
      (retryingRecord, true, [ScanAction.load]) ∧
    scanRecord pinnedRecord LoadOutcome.success = (pinnedRecord, false, []) :=
  ⟨plugin_failure_model.2.1 retryingRecord rfl rfl rfl,
   plugin_failure_model.2.2.2.1 pinnedRecord LoadOutcome.success rfl rfl rfl rfl⟩

/-! Claims about load and unload of the chat-room plugin. -/

/-- A one-nickname configuration for the chat-room plugin. -/
def bobConfig : ChatRoomConfig :=
  { nicknames := ["Bob"], initialPoints := [], tellTimeout := none,
    minCoolDown := none, maxCoolDown := none }

/-- C7 counterexample: after the unload delegate runs, the nickname pool
is cleared, not reset to the configured list: loading with the
configured list `["Bob"]` and unloading leaves an empty pool. -/
theorem unload_pool_cleared_counterexample :
    (loadRoom freshRoom bobConfig).availableNickNames = ["Bob"] ∧
    (unloadRoom (loadRoom freshRoom bobConfig)).availableNickNames = [] ∧
    (unloadRoom (loadRoom freshRoom bobConfig)).availableNickNames ≠
      bobConfig.nicknames := by
  refine ⟨?_, rfl, ?_⟩ <;> decide

/-- C7 (amended): after the chat-room plugin's unload delegate runs, the
session table is empty, `answeredCorrectly = true`, `nextSessionId = 1`,
the diagnostic delegate is null, and the nickname pool is cleared to
empty (the configured list is re-inserted only by the next load). -/
theorem unloadRoom_resets (room : RoomState) :
    (unloadRoom room).users = [] ∧
    (unloadRoom room).usersHaveClosed = false ∧
    (unloadRoom room).answeredCorrectly = true ∧
    (unloadRoom room).nextSessionId = 1 ∧
    (unloadRoom room).diagnosticsAttached = false ∧
    (unloadRoom room).availableNickNames = [] :=
  ⟨rfl, rfl, rfl, rfl, rfl, rfl⟩

/-! Claims about the nickname protocol. -/

/-- C2: the four branches of the SetNickName protocol, for a session
`sid` present in the table with entry `u`.  Empty request: success, the
nickname is cleared, and exactly when the old nickname was non-empty it
returns to the pool and a Leave is broadcast.  Same name: success with
no state change and no broadcast.  Name not in the pool: failure with no
state change.  Otherwise the name is taken from the pool, the session's
nickname and points (`initialPoints`, default 0) are set, Leave (when
old non-empty) then Join are broadcast, and the sender's queue observes
Leave, Join, SetNickNameResult in that order. -/
theorem setNickName_protocol (room : RoomState) (sid : Nat) (u : User)
    (newNickname : String) (hfind : findUser room.users sid = some u) :
    (newNickname = "" →
      (setNickName room sid u newNickname).1.availableNickNames =
        (if u.nickname = "" then room.availableNickNames
         else poolInsert u.nickname room.availableNickNames) ∧
      findUser (setNickName room sid u newNickname).1.users sid =
        some { u with nickname := "" } ∧
      (setNickName room sid u newNickname).2 =
        (if u.nickname = "" then [Event.direct sid (Msg.setNickNameResult true)]
         else [Event.broadcast (broadcastRecipients room) (Msg.leave u.nickname),
               Event.direct sid (Msg.setNickNameResult true)])) ∧
    (newNickname ≠ "" → newNickname = u.nickname →
      setNickName room sid u newNickname =
        (room, [Event.direct sid (Msg.setNickNameResult true)])) ∧
    (newNickname ≠ "" → newNickname ≠ u.nickname →
      newNickname ∉ room.availableNickNames →
      setNickName room sid u newNickname =
        (room, [Event.direct sid (Msg.setNickNameResult false)])) ∧
    (newNickname ≠ "" → newNickname ≠ u.nickname →
      newNickname ∈ room.availableNickNames →
      (setNickName room sid u newNickname).1.availableNickNames =
        (if u.nickname = "" then room.availableNickNames.erase newNickname
         else poolInsert u.nickname (room.availableNickNames.erase newNickname)) ∧
      findUser (setNickName room sid u newNickname).1.users sid =
        some { u with
               nickname := newNickname,
               points := lookupPoints room.initialPoints newNickname } ∧
      (setNickName room sid u newNickname).2 =
        (if u.nickname = "" then
          [Event.broadcast (broadcastRecipients room) (Msg.join newNickname),
           Event.direct sid (Msg.setNickNameResult true)]
         else
          [Event.broadcast (broadcastRecipients room) (Msg.leave u.nickname),
           Event.broadcast (broadcastRecipients room) (Msg.join newNickname),
           Event.direct sid (Msg.setNickNameResult true)]) ∧
      (u.nickname ≠ "" →
        observedBy sid (setNickName room sid u newNickname).2 =
          [Msg.leave u.nickname, Msg.join newNickname,
           Msg.setNickNameResult true])) := by
  have hsid : sid ∈ ids room.users := mem_ids_of_findUser room.users sid u hfind
  refine ⟨?_, ?_, ?_, ?_⟩
  · intro hnew
    subst hnew
    by_cases hold : u.nickname = ""
    · refine ⟨by simp [setNickName, hold], ?_, by simp [setNickName, hold]⟩
      simp only [setNickName, hold, if_pos rfl]
      exact findUser_setUser room.users sid u _ hfind
    · refine ⟨by simp [setNickName, hold, broadcastRecipients], ?_,
        by simp [setNickName, hold, broadcastRecipients]⟩
      simp only [setNickName, hold, if_pos rfl, if_neg hold]
      exact findUser_setUser room.users sid u _ hfind
  · intro hnew hsame
    simp [setNickName, hnew, hsame.symm]
  · intro hnew hdiff hpool
    have hdiff2 : ¬ u.nickname = newNickname := fun h => hdiff h.symm
    simp [setNickName, hnew, hdiff2, hpool]
  · intro hnew hdiff hpool
    have hdiff2 : ¬ u.nickname = newNickname := fun h => hdiff h.symm
    have hnew2 : ¬ ("" : String) = newNickname := fun h => hnew h.symm
    by_cases hold : u.nickname = ""
    · refine ⟨by simp [setNickName, hnew, hdiff2, hnew2, hpool, hold, broadcastRecipients], ?_,
        by simp [setNickName, hnew, hdiff2, hnew2, hpool, hold, broadcastRecipients], ?_⟩
      · simp only [setNickName, if_neg hnew, if_neg hdiff2, if_pos hpool, if_pos hold]
        exact findUser_setUser room.users sid u _ hfind
      · intro hold2
        exact absurd hold hold2
    · refine ⟨by simp [setNickName, hnew, hdiff2, hnew2, hpool, hold, broadcastRecipients], ?_,
        by simp [setNickName, hnew, hdiff2, hnew2, hpool, hold, broadcastRecipients], ?_⟩
      · simp only [setNickName, if_neg hnew, if_neg hdiff2, if_pos hpool, if_neg hold]
        exact findUser_setUser room.users sid u _ hfind
      · intro _
        simp [setNickName, hnew, hdiff2, hnew2, hpool, hold,
          observedBy, broadcastRecipients, hsid]

/-- A two-session room for witnessing the nickname protocol: session 1
holds "Bob", session 2 is a lurker, and "Alice" is in the pool. -/
def nickWitnessRoom : RoomState :=
  { freshRoom with
    availableNickNames := ["Alice"],
    users := [(1, { nickname := "Bob", wsOpen := true, lastTell := none, points := 0 }),
              (2, newUser)],
    nextSessionId := 3 }

/-- C2 witness: in the concrete room, session 1 changing "Bob" to
"Alice" observes Leave, Join, SetNickNameResult in that order. -/
theorem setNickName_protocol_witness :
    observedBy 1 (setNickName nickWitnessRoom 1
      { nickname := "Bob", wsOpen := true, lastTell := none, points := 0 } "Alice").2 =
      [Msg.leave "Bob", Msg.join "Alice", Msg.setNickNameResult true] := by
  obtain ⟨-, -, -, h4⟩ := setNickName_protocol nickWitnessRoom 1
    { nickname := "Bob", wsOpen := true, lastTell := none, points := 0 } "Alice"
    (by decide)
  obtain ⟨-, -, -, hobs⟩ := h4 (by decide) (by decide) (by decide)
  exact hobs (by decide)

/-! Claims about the Tell gate. -/

/-- Acceptance condition for a Tell, as the claim states it: non-empty
nickname, at least `tellTimeout` elapsed since the last accepted tell
(inclusive at the boundary), and a non-empty payload that parses as a
signed integer. -/
def tellAcceptedSpec (room : RoomState) (u : User) (now : ℚ) (text : String) : Prop :=
  u.nickname ≠ "" ∧
  (∀ t, u.lastTell = some t → room.tellTimeout ≤ now - t) ∧
  text ≠ "" ∧
  parsesAsSignedInteger text = true

theorem tellTooSoon_false_iff (u : User) (now timeout : ℚ) :
    tellTooSoon u now timeout = false ↔ ∀ t, u.lastTell = some t → timeout ≤ now - t := by
  unfold tellTooSoon
  cases hu : u.lastTell with
  | none => simp
  | some t => simp [not_lt]

/-- C4: a Tell from session `sid` (present with entry `u`) is accepted
if and only if the acceptance condition holds; when accepted, the
session's `lastTell` becomes `now` and the first emitted event is the
broadcast of the tell to the whole table; when rejected, the state is
unchanged and nothing is sent.  The boundary `now = lastTell +
tellTimeout` satisfies the condition, so such a Tell is accepted. -/
theorem tell_gate (room : RoomState) (sid : Nat) (u : User) (now : ℚ)
    (text : String) (hfind : findUser room.users sid = some u) :
    ((tellStep room sid u now text).2 ≠ [] ↔ tellAcceptedSpec room u now text) ∧
    (tellAcceptedSpec room u now text →
      (∃ u2, findUser (tellStep room sid u now text).1.users sid = some u2 ∧
        u2.lastTell = some now ∧ u2.nickname = u.nickname) ∧
      (tellStep room sid u now text).2.head? =
        some (Event.broadcast (broadcastRecipients room) (Msg.tell u.nickname text))) ∧
    (¬ tellAcceptedSpec room u now text →
      tellStep room sid u now text = (room, [])) := by
  have hrec : ids (setUser room.users sid { u with lastTell := some now }) =
      broadcastRecipients room := ids_setUser room.users sid _
  have hrej : ¬ tellAcceptedSpec room u now text →
      tellStep room sid u now text = (room, []) := by
    intro hr
    by_cases h1 : u.nickname = ""
    · simp [tellStep, h1]
    by_cases h2 : tellTooSoon u now room.tellTimeout
    · simp [tellStep, h1, h2]
    by_cases h3 : text = ""
    · simp [tellStep, h1, h2, h3]
    by_cases h4 : parsesAsSignedInteger text
    · exact absurd ⟨h1, (tellTooSoon_false_iff u now room.tellTimeout).mp
        (Bool.not_eq_true _ ▸ h2), h3, h4⟩ hr
    · simp [tellStep, h1, h2, h3, h4]
  have hacc : tellAcceptedSpec room u now text →
      (∃ u2, findUser (tellStep room sid u now text).1.users sid = some u2 ∧
        u2.lastTell = some now ∧ u2.nickname = u.nickname) ∧
      (tellStep room sid u now text).2.head? =
        some (Event.broadcast (broadcastRecipients room) (Msg.tell u.nickname text)) := by
    rintro ⟨h1, h2, h3, h4⟩
    have h2f : tellTooSoon u now room.tellTimeout = false :=
      (tellTooSoon_false_iff u now room.tellTimeout).mpr h2
    have hfu : findUser (setUser room.users sid { u with lastTell := some now }) sid =
        some { u with lastTell := some now } :=
      findUser_setUser room.users sid u _ hfind
    by_cases h5 : room.answeredCorrectly
    · refine ⟨⟨{ u with lastTell := some now }, ?_, rfl, rfl⟩, ?_⟩
      · simpa [tellStep, h1, h2f, h3, h4, h5] using hfu
      · simp [tellStep, h1, h2f, h3, h4, h5, hrec, broadcastRecipients]
    · by_cases h6 : text = room.answer
      · subst h6
        refine ⟨⟨{ u with lastTell := some now, points := u.points + 1 }, ?_, rfl, rfl⟩, ?_⟩
        · have := findUser_setUser
            (setUser room.users sid { u with lastTell := some now }) sid
            { u with lastTell := some now }
            { u with lastTell := some now, points := u.points + 1 } hfu
          simpa [tellStep, h1, h2f, h3, h4, h5] using this
        · simp [tellStep, h1, h2f, h3, h4, h5, hrec, broadcastRecipients]
      · refine ⟨⟨{ u with lastTell := some now, points := u.points - 1 }, ?_, rfl, rfl⟩, ?_⟩
        · have := findUser_setUser
            (setUser room.users sid { u with lastTell := some now }) sid
            { u with lastTell := some now }
            { u with lastTell := some now, points := u.points - 1 } hfu
          simpa [tellStep, h1, h2f, h3, h4, h5, h6] using this
        · simp [tellStep, h1, h2f, h3, h4, h5, h6, hrec, broadcastRecipients]
  refine ⟨⟨fun hne => ?_, fun h => ?_⟩, hacc, hrej⟩
  · by_contra hn
    rw [hrej hn] at hne
    exact hne rfl
  · intro h0
    have := (hacc h).2
    rw [h0] at this
    simp at this

/-- A room for witnessing the Tell boundary: one session holding "Bob"
whose last tell was at time 0, with `tellTimeout = 1`. -/
def tellWitnessRoom : RoomState :=
  { freshRoom with
    users := [(1, { nickname := "Bob", wsOpen := true, lastTell := some 0, points := 0 })],
    nextSessionId := 2 }

/-- C4 witness: a Tell at exactly `lastTell + tellTimeout` (time 1) is
accepted: the tell is broadcast and `lastTell` advances to 1. -/
theorem tell_gate_witness :
    (tellStep tellWitnessRoom 1
        { nickname := "Bob", wsOpen := true, lastTell := some 0, points := 0 } 1 "42").2.head? =
      some (Event.broadcast (broadcastRecipients tellWitnessRoom) (Msg.tell "Bob" "42")) :=
  ((tell_gate tellWitnessRoom 1
      { nickname := "Bob", wsOpen := true, lastTell := some 0, points := 0 } 1 "42"
      (by decide)).2.1
    ⟨by decide, by rintro t ht; cases ht; norm_num [tellWitnessRoom, freshRoom],
     by decide, by decide⟩).2

/-! Claims about scoring and award exclusivity. -/

/-- Whether an event carries an Award message. -/
def isAwardEvent : Event → Bool
  | Event.broadcast _ (Msg.award _ _) => true
  | Event.direct _ (Msg.award _ _) => true
  | _ => false

/-- Whether an event carries a Penalty message. -/
def isPenaltyEvent : Event → Bool
  | Event.broadcast _ (Msg.penalty _ _) => true
  | Event.direct _ (Msg.penalty _ _) => true
  | _ => false

/-- Number of Award events in an event list. -/
def awardCount (evs : List Event) : Nat := (evs.filter isAwardEvent).length

/-- Run a sequence of inbound Tell frames, accumulating the emitted
events. -/
def runTells (room : RoomState) : List (Nat × ℚ × String) → RoomState × List Event
  | [] => (room, [])
  | (sid, now, text) :: rest =>
      let r := receiveTell room sid now text
      let rs := runTells r.1 rest
      (rs.1, r.2 ++ rs.2)

/-- One more Award may still be emitted only while the current question
is unanswered. -/
def pendingAward (room : RoomState) : Nat :=
  if room.answeredCorrectly then 0 else 1

theorem receiveTell_award_credit (room : RoomState) (sid : Nat) (now : ℚ)
    (text : String) :
    awardCount (receiveTell room sid now text).2 +
      pendingAward (receiveTell room sid now text).1 ≤ pendingAward room := by
  unfold receiveTell
  cases hf : findUser room.users sid with
  | none => simp [awardCount]
  | some u =>
      by_cases h1 : u.nickname = ""
      · simp [tellStep, h1, awardCount]
      by_cases h2 : tellTooSoon u now room.tellTimeout
      · simp [tellStep, h1, h2, awardCount]
      by_cases h3 : text = ""
      · simp [tellStep, h1, h2, h3, awardCount]
      by_cases h4 : parsesAsSignedInteger text
      · by_cases h5 : room.answeredCorrectly
        · simp [tellStep, h1, h2, h3, h4, h5, awardCount, isAwardEvent, pendingAward]
        · by_cases h6 : text = room.answer
          · subst h6
            simp [tellStep, h1, h2, h3, h4, h5, awardCount, isAwardEvent, pendingAward]
          · simp [tellStep, h1, h2, h3, h4, h5, h6, awardCount, isAwardEvent,
              pendingAward]
      · simp [tellStep, h1, h2, h3, h4, awardCount]

theorem runTells_award_credit (tells : List (Nat × ℚ × String)) (room : RoomState) :
    awardCount (runTells room tells).2 + pendingAward (runTells room tells).1 ≤
      pendingAward room := by
  induction tells generalizing room with
  | nil => simp [runTells, awardCount]
  | cons t rest ih =>
      obtain ⟨sid, now, text⟩ := t
      have h1 := receiveTell_award_credit room sid now text
      have h2 := ih (receiveTell room sid now text).1
      simp only [runTells, awardCount, List.filter_append, List.length_append] at h1 h2 ⊢
      linarith

theorem receiveTell_quiet_when_answered (room : RoomState) (sid : Nat) (now : ℚ)
    (text : String) (h5 : room.answeredCorrectly = true) :
    (receiveTell room sid now text).1.answeredCorrectly = true ∧
      ∀ e ∈ (receiveTell room sid now text).2,
        isAwardEvent e = false ∧ isPenaltyEvent e = false := by
  unfold receiveTell
  cases hf : findUser room.users sid with
  | none => simp [h5]
  | some u =>
      by_cases h1 : u.nickname = ""
      · simp [tellStep, h1, h5]
      by_cases h2 : tellTooSoon u now room.tellTimeout
      · simp [tellStep, h1, h2, h5]
      by_cases h3 : text = ""
      · simp [tellStep, h1, h2, h3, h5]
      by_cases h4 : parsesAsSignedInteger text
      · simp [tellStep, h1, h2, h3, h4, h5, isAwardEvent, isPenaltyEvent]
      · simp [tellStep, h1, h2, h3, h4, h5]

theorem runTells_quiet_when_answered (tells : List (Nat × ℚ × String))
    (room : RoomState) (h5 : room.answeredCorrectly = true) :
    (runTells room tells).1.answeredCorrectly = true ∧
      ∀ e ∈ (runTells room tells).2,
        isAwardEvent e = false ∧ isPenaltyEvent e = false := by
  induction tells generalizing room with
  | nil => simp [runTells, h5]
  | cons t rest ih =>
      obtain ⟨sid, now, text⟩ := t
      have h1 := receiveTell_quiet_when_answered room sid now text h5
      have h2 := ih (receiveTell room sid now text).1 h1.1
      refine ⟨h2.1, ?_⟩
      intro e he
      simp only [runTells, List.mem_append] at he
      rcases he with he | he
      · exact h1.2 e he
      · exact h2.2 e he

/-- C5: scoring of accepted Tells against the current question.  While
`answeredCorrectly` is false, an accepted Tell whose text equals the
answer sets `answeredCorrectly`, increments the sender's points and
broadcasts the Award with the new score; an accepted Tell with any other
text decrements the sender's points and broadcasts a Penalty, leaving
the question open.  Once `answeredCorrectly` is true, any sequence of
Tells produces no Award and no Penalty and leaves the flag set — so
from a fresh question, any sequence of Tells broadcasts at most one
Award. -/
theorem tell_scoring (room : RoomState) (sid : Nat) (u : User) (now : ℚ)
    (text : String) (hfind : findUser room.users sid = some u)
    (hacc : tellAcceptedSpec room u now text) :
    (room.answeredCorrectly = false → text = room.answer →
      (tellStep room sid u now text).1.answeredCorrectly = true ∧
      findUser (tellStep room sid u now text).1.users sid =
        some { u with lastTell := some now, points := u.points + 1 } ∧
      (tellStep room sid u now text).2 =
        [Event.broadcast (broadcastRecipients room) (Msg.tell u.nickname text),
         Event.broadcast (broadcastRecipients room) (Msg.award u.nickname (u.points + 1))]) ∧
    (room.answeredCorrectly = false → text ≠ room.answer →
      (tellStep room sid u now text).1.answeredCorrectly = false ∧
      findUser (tellStep room sid u now text).1.users sid =
        some { u with lastTell := some now, points := u.points - 1 } ∧
      (tellStep room sid u now text).2 =
        [Event.broadcast (broadcastRecipients room) (Msg.tell u.nickname text),
         Event.broadcast (broadcastRecipients room) (Msg.penalty u.nickname (u.points - 1))]) ∧
    (room.answeredCorrectly = true →
      ∀ tells, (runTells room tells).1.answeredCorrectly = true ∧
        ∀ e ∈ (runTells room tells).2,
          isAwardEvent e = false ∧ isPenaltyEvent e = false) ∧
    (∀ tells, awardCount (runTells room tells).2 ≤ 1) := by
  obtain ⟨h1, h2, h3, h4⟩ := hacc
  have h2f : tellTooSoon u now room.tellTimeout = false :=
    (tellTooSoon_false_iff u now room.tellTimeout).mpr h2
  have hfu : findUser (setUser room.users sid { u with lastTell := some now }) sid =
      some { u with lastTell := some now } :=
    findUser_setUser room.users sid u _ hfind
  refine ⟨?_, ?_, ?_, ?_⟩
  · intro h5 h6
    subst h6
    have hfu2 := findUser_setUser
      (setUser room.users sid { u with lastTell := some now }) sid
      { u with lastTell := some now }
      { u with lastTell := some now, points := u.points + 1 } hfu
    refine ⟨by simp [tellStep, h1, h2f, h3, h4, h5], ?_,
      by simp [tellStep, h1, h2f, h3, h4, h5, broadcastRecipients, ids_setUser]⟩
    simpa [tellStep, h1, h2f, h3, h4, h5] using hfu2
  · intro h5 h6
    have hfu2 := findUser_setUser
      (setUser room.users sid { u with lastTell := some now }) sid
      { u with lastTell := some now }
      { u with lastTell := some now, points := u.points - 1 } hfu
    refine ⟨by simp [tellStep, h1, h2f, h3, h4, h5, h6], ?_,
      by simp [tellStep, h1, h2f, h3, h4, h5, h6, broadcastRecipients, ids_setUser]⟩
    simpa [tellStep, h1, h2f, h3, h4, h5, h6] using hfu2
  · intro h5 tells
    exact runTells_quiet_when_answered tells room h5
  · intro tells
    have := runTells_award_credit tells room
    have hp : pendingAward room ≤ 1 := by
      unfold pendingAward
      split <;> omega
    omega

/-- A room with an unanswered question "42", one session holding "Bob"
(5 points) and one holding "Alice". -/
def scoringWitnessRoom : RoomState :=
  { freshRoom with
    users := [(1, { nickname := "Bob", wsOpen := true, lastTell := none, points := 5 }),
              (2, { nickname := "Alice", wsOpen := true, lastTell := none, points := 0 })],
    nextSessionId := 3,
    answeredCorrectly := false,
    answer := "42" }

/-- C5 witness: in the concrete room, Bob answering "42" flips the
question to answered, moves to 6 points, and the Tell is followed by the
Award broadcast; a subsequent Tell sequence awards at most once. -/
theorem tell_scoring_witness :
    ((tellStep scoringWitnessRoom 1
        { nickname := "Bob", wsOpen := true, lastTell := none, points := 5 }
        (3/2) "42").1.answeredCorrectly = true ∧
      findUser (tellStep scoringWitnessRoom 1
        { nickname := "Bob", wsOpen := true, lastTell := none, points := 5 }
        (3/2) "42").1.users 1 =
        some { nickname := "Bob", wsOpen := true, lastTell := some (3/2), points := 6 } ∧
      (tellStep scoringWitnessRoom 1
        { nickname := "Bob", wsOpen := true, lastTell := none, points := 5 }
        (3/2) "42").2 =
        [Event.broadcast (broadcastRecipients scoringWitnessRoom) (Msg.tell "Bob" "42"),
         Event.broadcast (broadcastRecipients scoringWitnessRoom) (Msg.award "Bob" 6)]) ∧
    awardCount (runTells scoringWitnessRoom
      [(1, 3/2, "42"), (2, 8/5, "42")]).2 ≤ 1 := by
  have h := tell_scoring scoringWitnessRoom 1
    { nickname := "Bob", wsOpen := true, lastTell := none, points := 5 } (3/2) "42"
    (by decide) ⟨by decide, (by rintro t ht; cases ht), by decide, by decide⟩
  exact ⟨h.1 rfl rfl, h.2.2.2 [(1, 3/2, "42"), (2, 8/5, "42")]⟩

/-! Claims about the quiz scheduler. -/

theorem drawInt_bounds (lo hi r : Nat) (h : lo ≤ hi) :
    lo ≤ drawInt lo hi r ∧ drawInt lo hi r ≤ hi := by
  unfold drawInt
  have h9 : 0 < hi + 1 - lo := by omega
  have := Nat.mod_lt r h9
  omega

theorem sampleQuestion_spec (lastAnswer : String) (raws : List (Nat × Nat × Nat))
    (a b c : Nat) (h : sampleQuestion lastAnswer raws = some (a, b, c)) :
    2 ≤ a ∧ a ≤ 10 ∧ 2 ≤ b ∧ b ≤ 10 ∧ 2 ≤ c ∧ c ≤ 97 ∧
      answerText a b c ≠ lastAnswer := by
  induction raws with
  | nil => simp [sampleQuestion] at h
  | cons r rest ih =>
      obtain ⟨r1, r2, r3⟩ := r
      simp only [sampleQuestion] at h
      by_cases he : answerText (drawInt 2 10 r1) (drawInt 2 10 r2) (drawInt 2 97 r3) =
          lastAnswer
      · rw [if_pos he] at h
        exact ih h
      · rw [if_neg he] at h
        obtain ⟨ha, hb, hc⟩ : drawInt 2 10 r1 = a ∧ drawInt 2 10 r2 = b ∧
            drawInt 2 97 r3 = c := by
          have := Option.some.injEq _ _ ▸ h
          simp only [Option.some.injEq, Prod.mk.injEq] at h
          exact ⟨h.1, h.2.1, h.2.2⟩
        subst ha; subst hb; subst hc
        obtain ⟨ha1, ha2⟩ := drawInt_bounds 2 10 r1 (by omega)
        obtain ⟨hb1, hb2⟩ := drawInt_bounds 2 10 r2 (by omega)
        obtain ⟨hc1, hc2⟩ := drawInt_bounds 2 97 r3 (by omega)
        exact ⟨ha1, ha2, hb1, hb2, hc1, hc2, he⟩

theorem drawReal_bounds (lo hi q : ℚ) (h : lo ≤ hi) :
    lo ≤ drawReal lo hi q ∧ drawReal lo hi q ≤ hi := by
  unfold drawReal
  have hm0 : (0 : ℚ) ≤ max 0 (min 1 q) := le_max_left 0 (min 1 q)
  have hm1 : max 0 (min 1 q) ≤ 1 := max_le (by norm_num) (min_le_left 1 q)
  have hd : (0 : ℚ) ≤ hi - lo := sub_nonneg.mpr h
  constructor
  · nlinarith
  · nlinarith

/-- C6: when the housekeeper posts a new question, the components lie in
`[2,10] × [2,10] × [2,97]`, the question and answer strings are derived
from them, the answer differs from the previous one, the question is
marked unanswered, the next question time advances by a cooldown inside
`[minQuestionCooldown, maxQuestionCooldown]` (when that interval is
non-degenerate), and the question is broadcast as a Tell from
MathBot2000. -/
theorem postQuestion_spec (room : RoomState) (raws : List (Nat × Nat × Nat))
    (q : ℚ) (room2 : RoomState) (evs : List Event)
    (h : postQuestion room raws q = some (room2, evs)) :
    ∃ a b c, room2.questionComponents = [a, b, c] ∧
      2 ≤ a ∧ a ≤ 10 ∧ 2 ≤ b ∧ b ≤ 10 ∧ 2 ≤ c ∧ c ≤ 97 ∧
      room2.question = questionText a b c ∧
      room2.answer = answerText a b c ∧
      room2.answer ≠ room.answer ∧
      room2.answeredCorrectly = false ∧
      (room.minQuestionCooldown ≤ room.maxQuestionCooldown →
        room.minQuestionCooldown ≤ room2.nextQuestionTime - room.nextQuestionTime ∧
        room2.nextQuestionTime - room.nextQuestionTime ≤ room.maxQuestionCooldown) ∧
      evs = [Event.broadcast (broadcastRecipients room)
        (Msg.tell "MathBot2000" room2.question)] := by
  unfold postQuestion at h
  cases hs : sampleQuestion room.answer raws with
  | none => rw [hs] at h; exact absurd h (by simp)
  | some t =>
      obtain ⟨a, b, c⟩ := t
      rw [hs] at h
      simp only [Option.some.injEq, Prod.mk.injEq] at h
      obtain ⟨hroom, hevs⟩ := h
      obtain ⟨ha1, ha2, hb1, hb2, hc1, hc2, hne⟩ :=
        sampleQuestion_spec room.answer raws a b c hs
      refine ⟨a, b, c, ?_, ha1, ha2, hb1, hb2, hc1, hc2, ?_, ?_, ?_, ?_, ?_, ?_⟩
      · rw [← hroom]; rfl
      · rw [← hroom]; rfl
      · rw [← hroom]; rfl
      · rw [← hroom]; exact hne
      · rw [← hroom]; rfl
      · intro hmm
        rw [← hroom]
        have hb := drawReal_bounds room.minQuestionCooldown room.maxQuestionCooldown q hmm
        unfold cooldownNextQuestion
        constructor <;> simp <;> linarith [hb.1, hb.2]
      · rw [← hevs, ← hroom]
        rfl

/-- The room state the posting step produces from the fresh room with
raw draws `(0,0,0)` and clamp draw 0. -/
def quizPostedRoom : RoomState :=
  { freshRoom with
    questionComponents := [2, 2, 2],
    question := "What is 2 * 2 + 2?",
    answer := "6",
    answeredCorrectly := false,
    nextQuestionTime := 10 }

/-- The events the posting step produces from the fresh room. -/
def quizPostedEvents : List Event :=
  [Event.broadcast (broadcastRecipients freshRoom)
    (Msg.tell "MathBot2000" "What is 2 * 2 + 2?")]

/-- C6 witness: posting from the fresh room with raw draws `(0,0,0)` and
clamp draw 0 yields question "What is 2 * 2 + 2?", answer "6", a 10
second cooldown, and the MathBot2000 broadcast. -/
theorem postQuestion_spec_witness :
    ∃ a b c, quizPostedRoom.questionComponents = [a, b, c] ∧
      2 ≤ a ∧ a ≤ 10 ∧ 2 ≤ b ∧ b ≤ 10 ∧ 2 ≤ c ∧ c ≤ 97 ∧
      quizPostedRoom.question = questionText a b c ∧
      quizPostedRoom.answer = answerText a b c ∧
      quizPostedRoom.answer ≠ freshRoom.answer ∧
      quizPostedRoom.answeredCorrectly = false ∧
      (freshRoom.minQuestionCooldown ≤ freshRoom.maxQuestionCooldown →
        freshRoom.minQuestionCooldown ≤
          quizPostedRoom.nextQuestionTime - freshRoom.nextQuestionTime ∧
        quizPostedRoom.nextQuestionTime - freshRoom.nextQuestionTime ≤
          freshRoom.maxQuestionCooldown) ∧
      quizPostedEvents = [Event.broadcast (broadcastRecipients freshRoom)
        (Msg.tell "MathBot2000" quizPostedRoom.question)] :=
  postQuestion_spec freshRoom [(0, 0, 0)] 0 quizPostedRoom quizPostedEvents (by
    norm_num [postQuestion, sampleQuestion, drawInt, drawReal, cooldownNextQuestion,
      quizPostedRoom, quizPostedEvents, freshRoom, questionText, answerText,
      broadcastRecipients, ids, min_def, max_def]
    rfl)

/-! Frame lemmas: which parts of the room each operation can touch. -/

theorem held_setUser_same (l : List (Nat × User)) (sid : Nat) (u u2 : User)
    (hfind : findUser l sid = some u) (hnodup : (ids l).Nodup)
    (hc : contrib u2 = contrib u) : held (setUser l sid u2) = held l := by
  obtain ⟨l₁, l₂, heq, -, -, hset⟩ := findUser_decomp l sid u hfind hnodup
  rw [hset u2, heq, held_append, held_append, held_cons, held_cons]
  show held l₁ ++ (contrib u2 ++ held l₂) = held l₁ ++ (contrib u ++ held l₂)
  rw [hc]

theorem receiveSetNickName_frame (room : RoomState) (sid : Nat) (n : String) :
    ids (receiveSetNickName room sid n).1.users = ids room.users ∧
    (receiveSetNickName room sid n).1.nextSessionId = room.nextSessionId := by
  unfold receiveSetNickName
  cases hf : findUser room.users sid with
  | none => exact ⟨rfl, rfl⟩
  | some u =>
      by_cases h1 : n = ""
      · by_cases h2 : u.nickname = "" <;> simp [setNickName, h1, h2, ids_setUser]
      · by_cases h2 : u.nickname = n
        · simp [setNickName, h1, h2, ids_setUser]
        · by_cases h3 : n ∈ room.availableNickNames
          · by_cases h4 : u.nickname = ""
            · have hne : ¬ ("" : String) = n := fun hh => h1 hh.symm
              simp [setNickName, h1, h2, h3, h4, hne, ids_setUser]
            · simp [setNickName, h1, h2, h3, h4, ids_setUser]
          · simp [setNickName, h1, h2, h3, ids_setUser]

theorem receiveTell_frame (room : RoomState) (sid : Nat) (now : ℚ) (text : String) :
    ids (receiveTell room sid now text).1.users = ids room.users ∧
    (receiveTell room sid now text).1.nextSessionId = room.nextSessionId ∧
    (receiveTell room sid now text).1.availableNickNames = room.availableNickNames := by
  unfold receiveTell
  cases hf : findUser room.users sid with
  | none => exact ⟨rfl, rfl, rfl⟩
  | some u =>
      by_cases h1 : u.nickname = ""
      · simp [tellStep, h1]
      by_cases h2 : tellTooSoon u now room.tellTimeout
      · simp [tellStep, h1, h2]
      by_cases h3 : text = ""
      · simp [tellStep, h1, h2, h3]
      by_cases h4 : parsesAsSignedInteger text
      · by_cases h5 : room.answeredCorrectly
        · simp [tellStep, h1, h2, h3, h4, h5, ids_setUser]
        · by_cases h6 : text = room.answer
          · subst h6
            simp [tellStep, h1, h2, h3, h4, h5, ids_setUser]
          · simp [tellStep, h1, h2, h3, h4, h5, h6, ids_setUser]
      · simp [tellStep, h1, h2, h3, h4]

theorem receiveTell_held (room : RoomState) (sid : Nat) (now : ℚ) (text : String)
    (hnodup : (ids room.users).Nodup) :
    held (receiveTell room sid now text).1.users = held room.users := by
  unfold receiveTell
  cases hf : findUser room.users sid with
  | none => rfl
  | some u =>
      have e1 : held (setUser room.users sid { u with lastTell := some now }) =
          held room.users :=
        held_setUser_same room.users sid u _ hf hnodup rfl
      have hn1 : (ids (setUser room.users sid { u with lastTell := some now })).Nodup := by
        rw [ids_setUser]; exact hnodup
      have hf1 := findUser_setUser room.users sid u { u with lastTell := some now } hf
      have e2 : ∀ u2 : User, contrib u2 = contrib { u with lastTell := some now } →
          held (setUser (setUser room.users sid { u with lastTell := some now }) sid u2) =
            held room.users := by
        intro u2 hc
        rw [held_setUser_same _ sid _ u2 hf1 hn1 hc, e1]
      by_cases h1 : u.nickname = ""
      · simp [tellStep, h1]
      by_cases h2 : tellTooSoon u now room.tellTimeout
      · simp [tellStep, h1, h2]
      by_cases h3 : text = ""
      · simp [tellStep, h1, h2, h3]
      by_cases h4 : parsesAsSignedInteger text
      · by_cases h5 : room.answeredCorrectly
        · simp [tellStep, h1, h2, h3, h4, h5, e1]
        · by_cases h6 : text = room.answer
          · subst h6
            simp [tellStep, h1, h2, h3, h4, h5, e1,
              e2 { u with lastTell := some now, points := u.points + 1 } rfl]
          · simp [tellStep, h1, h2, h3, h4, h5, h6, e1,
              e2 { u with lastTell := some now, points := u.points - 1 } rfl]
      · simp [tellStep, h1, h2, h3, h4]

theorem removeUser_frame (room : RoomState) (sid : Nat) :
    ids (removeUser room sid).users = ids room.users ∧
    (removeUser room sid).nextSessionId = room.nextSessionId ∧
    (removeUser room sid).availableNickNames = room.availableNickNames := by
  unfold removeUser
  cases hf : findUser room.users sid with
  | none => exact ⟨rfl, rfl, rfl⟩
  | some u => exact ⟨ids_setUser _ _ _, rfl, rfl⟩

theorem removeUser_held (room : RoomState) (sid : Nat)
    (hnodup : (ids room.users).Nodup) :
    held (removeUser room sid).users = held room.users := by
  unfold removeUser
  cases hf : findUser room.users sid with
  | none => rfl
  | some u => exact held_setUser_same room.users sid u _ hf hnodup rfl

/-! Behaviour of the reaping loop. -/

theorem reapLoop_users : ∀ (pending kept : List (Nat × User)) (pool : List String),
    (reapLoop kept pending pool).1 = kept ++ pending.filter (fun p => p.2.wsOpen) := by
  intro pending
  induction pending with
  | nil => intro kept pool; simp [reapLoop]
  | cons p rest ih =>
      intro kept pool
      obtain ⟨sid, u⟩ := p
      by_cases ho : u.wsOpen
      · simp [reapLoop, ho, ih, List.filter_cons]
      · by_cases hn : u.nickname = "" <;>
          simp [reapLoop, ho, hn, ih, List.filter_cons]

/-- Multiset shuffle: a permutation of appended lists survives insertion
of a common block in the middle. -/
theorem append_shuffle_perm (c pl f pool r : List String)
    (h : List.Perm (pl ++ f) (pool ++ r)) :
    List.Perm (pl ++ (c ++ f)) (pool ++ (c ++ r)) := by
  rw [← Multiset.coe_eq_coe] at h ⊢
  simp only [← Multiset.coe_add] at h ⊢
  have k1 : ((pl : Multiset String) + ((c : Multiset String) + f)) =
      (c : Multiset String) + ((pl : Multiset String) + f) := by abel
  have k2 : ((pool : Multiset String) + ((c : Multiset String) + r)) =
      (c : Multiset String) + ((pool : Multiset String) + r) := by abel
  rw [k1, k2, h]

/-- Returning a nickname to the pool while a session drops it preserves
the combined multiset. -/
theorem perm_pool_return (old : String) (pool h1 h2 : List String) :
    List.Perm ((old :: pool) ++ (h1 ++ h2)) (pool ++ (h1 ++ old :: h2)) := by
  rw [← Multiset.coe_eq_coe]
  simp only [← Multiset.cons_coe, ← Multiset.coe_add]
  simp only [← Multiset.singleton_add]
  abel

/-- Taking a nickname from the pool into a session preserves the
combined multiset. -/
theorem perm_pool_take (n : String) (pool h1 h2 : List String) (hn : n ∈ pool) :
    List.Perm (pool.erase n ++ (h1 ++ n :: h2)) (pool ++ (h1 ++ h2)) := by
  rw [← Multiset.coe_eq_coe]
  simp only [← Multiset.cons_coe, ← Multiset.coe_add]
  rw [← Multiset.cons_erase (Multiset.mem_coe.mpr hn)]
  simp only [Multiset.coe_erase, ← Multiset.singleton_add]
  abel

/-- Swapping the held nickname against one from the pool preserves the
combined multiset. -/
theorem perm_pool_swap (old n : String) (pool h1 h2 : List String) (hn : n ∈ pool) :
    List.Perm ((old :: pool.erase n) ++ (h1 ++ n :: h2)) (pool ++ (h1 ++ old :: h2)) := by
  rw [← Multiset.coe_eq_coe]
  simp only [← Multiset.cons_coe, ← Multiset.coe_add]
  rw [← Multiset.cons_erase (Multiset.mem_coe.mpr hn)]
  simp only [Multiset.coe_erase, ← Multiset.singleton_add]
  abel

theorem reapLoop_perm : ∀ (pending kept : List (Nat × User)) (pool : List String),
    (pool ++ held pending).Nodup →
    List.Perm
      ((reapLoop kept pending pool).2.1 ++ held (pending.filter (fun p => p.2.wsOpen)))
      (pool ++ held pending) := by
  intro pending
  induction pending with
  | nil =>
      intro kept pool h
      simp [reapLoop]
  | cons p rest ih =>
      intro kept pool h
      obtain ⟨sid, u⟩ := p
      have hheld : held ((sid, u) :: rest) = contrib u ++ held rest := rfl
      rw [hheld] at h
      by_cases ho : u.wsOpen
      · have hsub : (pool ++ held rest).Nodup :=
          h.sublist ((List.sublist_append_right (contrib u) (held rest)).append_left pool)
        have hrec := ih (kept ++ [(sid, u)]) pool hsub
        have hl : (reapLoop kept ((sid, u) :: rest) pool).2.1 =
            (reapLoop (kept ++ [(sid, u)]) rest pool).2.1 := by
          simp [reapLoop, ho]
        have hfe : ((sid, u) :: rest).filter (fun p => p.2.wsOpen) =
            (sid, u) :: rest.filter (fun p => p.2.wsOpen) := by
          simp [List.filter_cons, ho]
        rw [hl, hfe, held_cons, hheld]
        exact append_shuffle_perm (contrib u) _ _ pool (held rest) hrec
      · by_cases hn : u.nickname = ""
        · have hc : contrib u = [] := by simp [contrib, hn]
          have hsub : (pool ++ held rest).Nodup := by
            rw [hc, List.nil_append] at h
            exact h
          have hrec := ih kept pool hsub
          have hl : (reapLoop kept ((sid, u) :: rest) pool).2.1 =
              (reapLoop kept rest pool).2.1 := by
            simp [reapLoop, ho, hn]
          have hev : (reapLoop kept ((sid, u) :: rest) pool).2.1 ++
              held (((sid, u) :: rest).filter (fun p => p.2.wsOpen)) =
              (reapLoop kept rest pool).2.1 ++
                held (rest.filter (fun p => p.2.wsOpen)) := by
            rw [hl]
            have hfe : ((sid, u) :: rest).filter (fun p => p.2.wsOpen) =
                rest.filter (fun p => p.2.wsOpen) := by
              simp [List.filter_cons, ho]
            rw [hfe]
          rw [hev, hheld, hc, List.nil_append]
          exact hrec
        · have hc : contrib u = [u.nickname] := by simp [contrib, hn]
          have hnotin : u.nickname ∉ pool := by
            intro hmem
            have hdis := List.disjoint_of_nodup_append h
            exact hdis hmem (by
              rw [hc]
              exact List.mem_append.mpr (Or.inl (by simp)))
          have hpoolins : poolInsert u.nickname pool = u.nickname :: pool :=
            poolInsert_of_not_mem _ _ hnotin
          have hsub : ((u.nickname :: pool) ++ held rest).Nodup := by
            have h2 := h
            rw [hc] at h2
            have hp : List.Perm (pool ++ (u.nickname :: held rest))
                (u.nickname :: (pool ++ held rest)) := List.perm_middle
            exact hp.nodup h2
          have hrec := ih kept (poolInsert u.nickname pool)
            (by rw [hpoolins]; exact hsub)
          rw [hpoolins] at hrec
          have hl : (reapLoop kept ((sid, u) :: rest) pool).2.1 =
              (reapLoop kept rest (poolInsert u.nickname pool)).2.1 := by
            simp [reapLoop, ho, hn]
          have hfe : ((sid, u) :: rest).filter (fun p => p.2.wsOpen) =
              rest.filter (fun p => p.2.wsOpen) := by
            simp [List.filter_cons, ho]
          rw [hl, hfe, hheld, hc, hpoolins]
          exact hrec.trans List.perm_middle.symm

/-! The room invariants. -/

/-- Session-id bookkeeping invariant: table keys are distinct and all
below the allocator. -/
def SessionIdInv (room : RoomState) : Prop :=
  (ids room.users).Nodup ∧ ∀ k ∈ ids room.users, k < room.nextSessionId

/-- Nickname conservation invariant: the pool plus the held nicknames is
a permutation of the configured list. -/
def NickPoolInv (init : List String) (room : RoomState) : Prop :=
  List.Perm (room.availableNickNames ++ held room.users) init

theorem stepRoom_ids (room : RoomState) (op : RoomOp) (h : SessionIdInv room) :
    SessionIdInv (stepRoom room op) := by
  obtain ⟨hnd, hbd⟩ := h
  cases op with
  | setNick sid n =>
      obtain ⟨hi, hn⟩ := receiveSetNickName_frame room sid n
      exact ⟨hi ▸ hnd, fun k hk => hn ▸ hbd k (hi ▸ hk)⟩
  | sendTell sid now t =>
      obtain ⟨hi, hn, -⟩ := receiveTell_frame room sid now t
      exact ⟨hi ▸ hnd, fun k hk => hn ▸ hbd k (hi ▸ hk)⟩
  | close sid =>
      obtain ⟨hi, hn, -⟩ := removeUser_frame room sid
      exact ⟨hi ▸ hnd, fun k hk => hn ▸ hbd k (hi ▸ hk)⟩
  | connect ok =>
      have hins : insertFresh room.users room.nextSessionId =
          room.users ++ [(room.nextSessionId, newUser)] :=
        insertFresh_append room.users room.nextSessionId hbd
      cases ok with
      | true =>
          constructor
          · show (ids (insertFresh room.users room.nextSessionId)).Nodup
            rw [hins, ids_append]
            refine List.Nodup.append hnd (by simp [ids]) ?_
            intro k hk hk2
            have : k = room.nextSessionId := by simpa [ids] using hk2
            exact absurd (hbd k hk) (by omega)
          · intro k hk
            show k < room.nextSessionId + 1
            rw [show ids (stepRoom room (RoomOp.connect true)).users =
              ids (insertFresh room.users room.nextSessionId) from rfl, hins,
              ids_append] at hk
            rcases List.mem_append.mp hk with hk | hk
            · exact Nat.lt_succ_of_lt (hbd k hk)
            · have : k = room.nextSessionId := by simpa [ids] using hk
              omega
      | false =>
          have hers : eraseUser (insertFresh room.users room.nextSessionId)
              room.nextSessionId = room.users := by
            rw [hins]
            exact eraseUser_append_self room.users room.nextSessionId newUser
              (fun k hk => by have := hbd k hk; omega)
          constructor
          · show (ids (eraseUser (insertFresh room.users room.nextSessionId)
              room.nextSessionId)).Nodup
            rw [hers]
            exact hnd
          · intro k hk
            show k < room.nextSessionId + 1
            rw [show ids (stepRoom room (RoomOp.connect false)).users =
              ids (eraseUser (insertFresh room.users room.nextSessionId)
                room.nextSessionId) from rfl, hers] at hk
            exact Nat.lt_succ_of_lt (hbd k hk)
  | reap =>
      by_cases hcl : room.usersHaveClosed
      · have hu : (reapPass room).1.users =
            room.users.filter (fun p => p.2.wsOpen) := by
          simp [reapPass, hcl, reapLoop_users]
        have hn : (reapPass room).1.nextSessionId = room.nextSessionId := by
          simp [reapPass, hcl]
        have hsubl : List.Sublist (ids (room.users.filter (fun p => p.2.wsOpen)))
            (ids room.users) :=
          List.Sublist.map (fun p : Nat × User => p.1)
            (List.filter_sublist room.users)
        constructor
        · show (ids (reapPass room).1.users).Nodup
          rw [hu]
          exact hnd.sublist hsubl
        · intro k hk
          have hk2 : k ∈ ids (reapPass room).1.users := hk
          rw [hu] at hk2
          show k < (reapPass room).1.nextSessionId
          rw [hn]
          exact hbd k (hsubl.subset hk2)
      · have : (reapPass room).1 = room := by simp [reapPass, hcl]
        show SessionIdInv (reapPass room).1
        rw [this]
        exact ⟨hnd, hbd⟩

theorem stepRoom_nick (init : List String) (room : RoomState) (op : RoomOp)
    (hinit : init.Nodup) (hids : SessionIdInv room) (h : NickPoolInv init room) :
    NickPoolInv init (stepRoom room op) := by
  cases op with
  | setNick sid n =>
      show NickPoolInv init (receiveSetNickName room sid n).1
      cases hf : findUser room.users sid with
      | none => simpa [receiveSetNickName, hf] using h
      | some u =>
          obtain ⟨l₁, l₂, heq, hk1, hk2, hset⟩ :=
            findUser_decomp room.users sid u hf hids.1
          have hheld : held room.users = held l₁ ++ (contrib u ++ held l₂) := by
            rw [heq, held_append, held_cons]
          have hap : (room.availableNickNames ++ held room.users).Nodup :=
            h.symm.nodup hinit
          by_cases h1 : n = ""
          · by_cases hold : u.nickname = ""
            · have hc : contrib { u with nickname := "" } = contrib u := by
                simp [contrib, hold]
              have hh := held_setUser_same room.users sid u _ hf hids.1 hc
              have hstate : (receiveSetNickName room sid n).1 =
                  { room with users := setUser room.users sid { u with nickname := "" } } := by
                simp [receiveSetNickName, hf, setNickName, h1, hold]
              unfold NickPoolInv
              rw [hstate]
              show List.Perm (room.availableNickNames ++
                held (setUser room.users sid { u with nickname := "" })) init
              rw [hh]
              exact h
            · have hc : contrib { u with nickname := "" } = ([] : List String) := by
                simp [contrib]
              have hcu : contrib u = [u.nickname] := by simp [contrib, hold]
              have hold_mem : u.nickname ∈ held room.users := by
                rw [hheld, hcu]
                exact List.mem_append.mpr (Or.inr (List.mem_append.mpr (Or.inl (by simp))))
              have hnp : u.nickname ∉ room.availableNickNames := fun hmem =>
                (List.disjoint_of_nodup_append hap) hmem hold_mem
              have hpi : poolInsert u.nickname room.availableNickNames =
                  u.nickname :: room.availableNickNames :=
                poolInsert_of_not_mem _ _ hnp
              have hstate : (receiveSetNickName room sid n).1 =
                  { room with
                    users := setUser room.users sid { u with nickname := "" },
                    availableNickNames :=
                      poolInsert u.nickname room.availableNickNames } := by
                simp [receiveSetNickName, hf, setNickName, h1, hold]
              unfold NickPoolInv
              rw [hstate]
              show List.Perm (poolInsert u.nickname room.availableNickNames ++
                held (setUser room.users sid { u with nickname := "" })) init
              rw [hpi, hset { u with nickname := "" }, held_append, held_cons]
              show List.Perm ((u.nickname :: room.availableNickNames) ++
                (held l₁ ++ (contrib { u with nickname := "" } ++ held l₂))) init
              rw [hc, List.nil_append]
              have h2 : List.Perm (room.availableNickNames ++ held room.users)
                  init := h
              rw [hheld, hcu, List.singleton_append] at h2
              exact (perm_pool_return u.nickname room.availableNickNames
                (held l₁) (held l₂)).trans h2
          · by_cases h2n : u.nickname = n
            · have hstate : (receiveSetNickName room sid n).1 = room := by
                simp [receiveSetNickName, hf, setNickName, h1, h2n]
              unfold NickPoolInv
              rw [hstate]
              exact h
            · by_cases h3 : n ∈ room.availableNickNames
              · have hcn : contrib { u with
                    nickname := n,
                    points := lookupPoints room.initialPoints n } = [n] := by
                  simp [contrib, h1]
                by_cases hold : u.nickname = ""
                · have hcu : contrib u = ([] : List String) := by simp [contrib, hold]
                  have hne : ¬ ("" : String) = n := fun hh => h1 hh.symm
                  have hstate : (receiveSetNickName room sid n).1 =
                      { room with
                        users := setUser room.users sid { u with
                          nickname := n,
                          points := lookupPoints room.initialPoints n },
                        availableNickNames :=
                          room.availableNickNames.erase n } := by
                    simp [receiveSetNickName, hf, setNickName, h1, h2n, h3, hold, hne]
                  unfold NickPoolInv
                  rw [hstate]
                  show List.Perm (room.availableNickNames.erase n ++
                    held (setUser room.users sid { u with
                      nickname := n,
                      points := lookupPoints room.initialPoints n })) init
                  rw [hset _, held_append, held_cons]
                  show List.Perm (room.availableNickNames.erase n ++
                    (held l₁ ++ (contrib { u with
                      nickname := n,
                      points := lookupPoints room.initialPoints n } ++ held l₂))) init
                  rw [hcn, List.singleton_append]
                  have h2 : List.Perm (room.availableNickNames ++ held room.users)
                      init := h
                  rw [hheld, hcu, List.nil_append] at h2
                  exact (perm_pool_take n room.availableNickNames
                    (held l₁) (held l₂) h3).trans h2
                · have hcu : contrib u = [u.nickname] := by simp [contrib, hold]
                  have hold_mem : u.nickname ∈ held room.users := by
                    rw [hheld, hcu]
                    exact List.mem_append.mpr
                      (Or.inr (List.mem_append.mpr (Or.inl (by simp))))
                  have hnp : u.nickname ∉ room.availableNickNames := fun hmem =>
                    (List.disjoint_of_nodup_append hap) hmem hold_mem
                  have hnp2 : u.nickname ∉ room.availableNickNames.erase n :=
                    fun hmem => hnp (List.mem_of_mem_erase hmem)
                  have hpi : poolInsert u.nickname (room.availableNickNames.erase n) =
                      u.nickname :: room.availableNickNames.erase n :=
                    poolInsert_of_not_mem _ _ hnp2
                  have hstate : (receiveSetNickName room sid n).1 =
                      { room with
                        users := setUser room.users sid { u with
                          nickname := n,
                          points := lookupPoints room.initialPoints n },
                        availableNickNames :=
                          poolInsert u.nickname (room.availableNickNames.erase n) } := by
                    simp [receiveSetNickName, hf, setNickName, h1, h2n, h3, hold]
                  unfold NickPoolInv
                  rw [hstate]
                  show List.Perm
                    (poolInsert u.nickname (room.availableNickNames.erase n) ++
                      held (setUser room.users sid { u with
                        nickname := n,
                        points := lookupPoints room.initialPoints n })) init
                  rw [hpi, hset _, held_append, held_cons]
                  show List.Perm ((u.nickname :: room.availableNickNames.erase n) ++
                    (held l₁ ++ (contrib { u with
                      nickname := n,
                      points := lookupPoints room.initialPoints n } ++ held l₂))) init
                  rw [hcn, List.singleton_append]
                  have h2 : List.Perm (room.availableNickNames ++ held room.users)
                      init := h
                  rw [hheld, hcu, List.singleton_append] at h2
                  exact (perm_pool_swap u.nickname n room.availableNickNames
                    (held l₁) (held l₂) h3).trans h2
              · have hstate : (receiveSetNickName room sid n).1 = room := by
                  simp [receiveSetNickName, hf, setNickName, h1, h2n, h3]
                unfold NickPoolInv
                rw [hstate]
                exact h
  | sendTell sid now t =>
      have e := receiveTell_held room sid now t hids.1
      have f := (receiveTell_frame room sid now t).2.2
      show NickPoolInv init (receiveTell room sid now t).1
      unfold NickPoolInv
      rw [e, f]
      exact h
  | close sid =>
      have e := removeUser_held room sid hids.1
      have f := (removeUser_frame room sid).2.2
      show NickPoolInv init (removeUser room sid)
      unfold NickPoolInv
      rw [e, f]
      exact h
  | connect ok =>
      have hins : insertFresh room.users room.nextSessionId =
          room.users ++ [(room.nextSessionId, newUser)] :=
        insertFresh_append room.users room.nextSessionId hids.2
      cases ok with
      | true =>
          show NickPoolInv init (addUser room true).1
          unfold NickPoolInv
          show List.Perm (room.availableNickNames ++
            held (insertFresh room.users room.nextSessionId)) init
          rw [hins, held_append]
          show List.Perm (room.availableNickNames ++
            (held room.users ++ held [(room.nextSessionId, newUser)])) init
          rw [show held [(room.nextSessionId, newUser)] = [] from rfl,
            List.append_nil]
          exact h
      | false =>
          have hers : eraseUser (insertFresh room.users room.nextSessionId)
              room.nextSessionId = room.users := by
            rw [hins]
            exact eraseUser_append_self room.users room.nextSessionId newUser
              (fun k hk => by have := hids.2 k hk; omega)
          show NickPoolInv init (addUser room false).1
          unfold NickPoolInv
          show List.Perm (room.availableNickNames ++
            held (eraseUser (insertFresh room.users room.nextSessionId)
              room.nextSessionId)) init
          rw [hers]
          exact h
  | reap =>
      by_cases hcl : room.usersHaveClosed
      · have hap : (room.availableNickNames ++ held room.users).Nodup :=
          h.symm.nodup hinit
        have key := reapLoop_perm room.users [] room.availableNickNames hap
        have hu : (reapPass room).1.users =
            room.users.filter (fun p => p.2.wsOpen) := by
          simp [reapPass, hcl, reapLoop_users]
        have hp : (reapPass room).1.availableNickNames =
            (reapLoop [] room.users room.availableNickNames).2.1 := by
          simp [reapPass, hcl]
        show NickPoolInv init (reapPass room).1
        unfold NickPoolInv
        rw [hu, hp]
        exact key.trans h
      · have : (reapPass room).1 = room := by simp [reapPass, hcl]
        show NickPoolInv init (reapPass room).1
        rw [this]
        exact h

theorem runRoom_ids_aux (ops : List RoomOp) :
    ∀ room, SessionIdInv room → SessionIdInv (runRoom room ops) := by
  induction ops with
  | nil => intro room h; exact h
  | cons op rest ih =>
      intro room h
      exact ih (stepRoom room op) (stepRoom_ids room op h)

theorem runRoom_inv_aux (init : List String) (hinit : init.Nodup)
    (ops : List RoomOp) :
    ∀ room, SessionIdInv room → NickPoolInv init room →
      NickPoolInv init (runRoom room ops) := by
  induction ops with
  | nil => intro room _ h2; exact h2
  | cons op rest ih =>
      intro room h1 h2
      exact ih (stepRoom room op) (stepRoom_ids room op h1)
        (stepRoom_nick init room op hinit h1 h2)

theorem initialRoom_ids (nicknames : List String) :
    SessionIdInv (initialRoom nicknames) :=
  ⟨List.nodup_nil, fun k hk => by simp [initialRoom, freshRoom, ids] at hk⟩

theorem initialRoom_nick (init : List String) :
    NickPoolInv init (initialRoom init) := by
  unfold NickPoolInv initialRoom
  simp [freshRoom, held]

/-- C3: nickname conservation.  Starting from a room whose pool is the
configured duplicate-free list and whose session table is empty, after
any sequence of operations (SetNickName, Tell, session admission, close
observation, reaper passes) the pool size plus the number of sessions
holding a non-empty nickname equals the initial pool size, and no two
table entries hold the same non-empty nickname. -/
theorem nickname_conservation (init : List String) (ops : List RoomOp)
    (hinit : init.Nodup) :
    (runRoom (initialRoom init) ops).availableNickNames.length +
      (held (runRoom (initialRoom init) ops).users).length = init.length ∧
    (held (runRoom (initialRoom init) ops).users).Nodup := by
  have hperm := runRoom_inv_aux init hinit ops (initialRoom init)
    (initialRoom_ids init) (initialRoom_nick init)
  constructor
  · have := hperm.length_eq
    simpa [List.length_append] using this
  · exact (hperm.symm.nodup hinit).of_append_right

/-- C3 witness: two nicknames, a session taking one, closing, and being
reaped; the count invariant and distinctness hold at the end. -/
theorem nickname_conservation_witness :
    (runRoom (initialRoom ["Alice", "Bob"])
        [RoomOp.connect true, RoomOp.setNick 1 "Bob", RoomOp.connect true,
         RoomOp.close 1, RoomOp.reap]).availableNickNames.length +
      (held (runRoom (initialRoom ["Alice", "Bob"])
        [RoomOp.connect true, RoomOp.setNick 1 "Bob", RoomOp.connect true,
         RoomOp.close 1, RoomOp.reap]).users).length = 2 ∧
    (held (runRoom (initialRoom ["Alice", "Bob"])
        [RoomOp.connect true, RoomOp.setNick 1 "Bob", RoomOp.connect true,
         RoomOp.close 1, RoomOp.reap]).users).Nodup :=
  nickname_conservation ["Alice", "Bob"]
    [RoomOp.connect true, RoomOp.setNick 1 "Bob", RoomOp.connect true,
     RoomOp.close 1, RoomOp.reap] (by decide)

/-- C9: session-id allocation.  Every AddUser consumes exactly one id
(`nextSessionId` goes up by one) whether or not the upgrade succeeds;
the allocator never decreases across any operation; from a fresh load
the table keys are always distinct and always below the allocator (so an
id is never given to two sessions); and ids observed on successful
connections need not be contiguous ([1, 3] after a failed upgrade in
between). -/
theorem session_id_allocation :
    (∀ (room : RoomState) (ok : Bool),
      (addUser room ok).1.nextSessionId = room.nextSessionId + 1) ∧
    (∀ (room : RoomState) (op : RoomOp),
      room.nextSessionId ≤ (stepRoom room op).nextSessionId) ∧
    (∀ (nicknames : List String) (ops : List RoomOp),
      (ids (runRoom (initialRoom nicknames) ops).users).Nodup) ∧
    (∀ (nicknames : List String) (ops : List RoomOp),
      ∀ k ∈ ids (runRoom (initialRoom nicknames) ops).users,
        k < (runRoom (initialRoom nicknames) ops).nextSessionId) ∧
    ids (runRoom (initialRoom []) [RoomOp.connect true, RoomOp.connect false,
      RoomOp.connect true]).users = [1, 3] := by
  refine ⟨?_, ?_, ?_, ?_, by decide⟩
  · intro room ok
    cases ok <;> rfl
  · intro room op
    cases op with
    | setNick sid n =>
        rw [show (stepRoom room (RoomOp.setNick sid n)).nextSessionId =
          (receiveSetNickName room sid n).1.nextSessionId from rfl,
          (receiveSetNickName_frame room sid n).2]
    | sendTell sid now t =>
        rw [show (stepRoom room (RoomOp.sendTell sid now t)).nextSessionId =
          (receiveTell room sid now t).1.nextSessionId from rfl,
          (receiveTell_frame room sid now t).2.1]
    | close sid =>
        rw [show (stepRoom room (RoomOp.close sid)).nextSessionId =
          (removeUser room sid).nextSessionId from rfl,
          (removeUser_frame room sid).2.1]
    | connect ok =>
        cases ok <;> exact Nat.le_succ _
    | reap =>
        by_cases hcl : room.usersHaveClosed <;>
          simp [stepRoom, reapPass, hcl]
  · intro nicknames ops
    exact (runRoom_ids_aux ops (initialRoom nicknames) (initialRoom_ids nicknames)).1
  · intro nicknames ops
    exact (runRoom_ids_aux ops (initialRoom nicknames) (initialRoom_ids nicknames)).2

/-- C9 witness: the allocation theorem applied to concrete inputs: one
successful admission bumps the allocator from 1 to 2, and the admitted
session's id 1 is below the allocator afterwards. -/
theorem session_id_allocation_witness :
    (addUser (initialRoom []) true).1.nextSessionId = 2 ∧
    (1 : Nat) < (runRoom (initialRoom []) [RoomOp.connect true]).nextSessionId :=
  ⟨session_id_allocation.1 (initialRoom []) true,
   session_id_allocation.2.2.2.1 [] [RoomOp.connect true] 1 (by decide)⟩

/-! Claims about deferred disconnect reaping. -/

theorem reapLoop_pool_mem : ∀ (pending kept : List (Nat × User))
    (pool : List String) (n : String),
    (n ∈ pool ∨ ∃ p ∈ pending, p.2.wsOpen = false ∧ p.2.nickname = n ∧ n ≠ "") →
    n ∈ (reapLoop kept pending pool).2.1 := by
  intro pending
  induction pending with
  | nil =>
      intro kept pool n h
      rcases h with hp | ⟨q, hq, -⟩
      · simpa [reapLoop] using hp
      · simp at hq
  | cons p rest ih =>
      intro kept pool n h
      obtain ⟨sid, u⟩ := p
      by_cases ho : u.wsOpen
      · have hred : (reapLoop kept ((sid, u) :: rest) pool).2.1 =
            (reapLoop (kept ++ [(sid, u)]) rest pool).2.1 := by
          simp [reapLoop, ho]
        rw [hred]
        apply ih
        rcases h with hp | ⟨q, hq, hqo, hqn, hne⟩
        · exact Or.inl hp
        · rcases List.mem_cons.mp hq with rfl | hq2
          · rw [ho] at hqo
            exact absurd hqo (by simp)
          · exact Or.inr ⟨q, hq2, hqo, hqn, hne⟩
      · by_cases hn0 : u.nickname = ""
        · have hred : (reapLoop kept ((sid, u) :: rest) pool).2.1 =
              (reapLoop kept rest pool).2.1 := by
            simp [reapLoop, ho, hn0]
          rw [hred]
          apply ih
          rcases h with hp | ⟨q, hq, hqo, hqn, hne⟩
          · exact Or.inl hp
          · rcases List.mem_cons.mp hq with rfl | hq2
            · exact absurd (hqn ▸ hn0) (Ne.symm hne ∘ Eq.symm)
            · exact Or.inr ⟨q, hq2, hqo, hqn, hne⟩
        · have hred : (reapLoop kept ((sid, u) :: rest) pool).2.1 =
              (reapLoop kept rest (poolInsert u.nickname pool)).2.1 := by
            simp [reapLoop, ho, hn0]
          rw [hred]
          apply ih
          rcases h with hp | ⟨q, hq, hqo, hqn, hne⟩
          · exact Or.inl ((mem_poolInsert n u.nickname pool).mpr (Or.inr hp))
          · rcases List.mem_cons.mp hq with rfl | hq2
            · exact Or.inl ((mem_poolInsert n u.nickname pool).mpr
                (Or.inl hqn.symm))
            · exact Or.inr ⟨q, hq2, hqo, hqn, hne⟩

theorem reapLoop_leave_mem : ∀ (pending kept : List (Nat × User))
    (pool : List String) (sid : Nat) (u : User),
    (sid, u) ∈ pending → u.wsOpen = false → u.nickname ≠ "" →
    ∃ recips, Event.broadcast recips (Msg.leave u.nickname) ∈
      (reapLoop kept pending pool).2.2 := by
  intro pending
  induction pending with
  | nil =>
      intro kept pool sid u hmem
      simp at hmem
  | cons p rest ih =>
      intro kept pool sid u hmem hop hni
      obtain ⟨k, v⟩ := p
      by_cases ho : v.wsOpen
      · have hred : (reapLoop kept ((k, v) :: rest) pool).2.2 =
            (reapLoop (kept ++ [(k, v)]) rest pool).2.2 := by
          simp [reapLoop, ho]
        rw [hred]
        rcases List.mem_cons.mp hmem with heq | hmem2
        · injection heq with he1 he2
          subst he2
          rw [hop] at ho
          simp at ho
        · exact ih (kept ++ [(k, v)]) pool sid u hmem2 hop hni
      · by_cases hn0 : v.nickname = ""
        · have hred : (reapLoop kept ((k, v) :: rest) pool).2.2 =
              (reapLoop kept rest pool).2.2 := by
            simp [reapLoop, ho, hn0]
          rw [hred]
          rcases List.mem_cons.mp hmem with heq | hmem2
          · injection heq with he1 he2
            subst he2
            exact absurd hn0 hni
          · exact ih kept pool sid u hmem2 hop hni
        · have hred : (reapLoop kept ((k, v) :: rest) pool).2.2 =
              Event.broadcast (ids (kept ++ rest)) (Msg.leave v.nickname) ::
                (reapLoop kept rest (poolInsert v.nickname pool)).2.2 := by
            simp [reapLoop, ho, hn0]
          rw [hred]
          rcases List.mem_cons.mp hmem with heq | hmem2
          · injection heq with he1 he2
            subst he2
            exact ⟨ids (kept ++ rest), List.mem_cons_self _ _⟩
          · obtain ⟨recips, hr⟩ :=
              ih kept (poolInsert v.nickname pool) sid u hmem2 hop hni
            exact ⟨recips, List.mem_cons_of_mem _ hr⟩

/-- C10: deferred close-out of a disconnected session.  After the close
is observed (`RemoveUser`), the row is still in the table with its
nickname: the session ids are unchanged, the entry is merely marked
closed, the non-empty nickname still appears in the NickNames response
and (with its points) in the Users response, the session is still in
every SendToAll snapshot, and the nickname has not returned to the pool.
The next reaper pass removes the row, returns the nickname to the pool,
and broadcasts the Leave. -/
theorem close_then_reap (room : RoomState) (sid : Nat) (u : User)
    (hfind : findUser room.users sid = some u)
    (hnodup : (ids room.users).Nodup)
    (hnick : u.nickname ≠ "")
    (hpool : u.nickname ∉ room.availableNickNames) :
    ids (removeUser room sid).users = ids room.users ∧
    findUser (removeUser room sid).users sid = some { u with wsOpen := false } ∧
    (removeUser room sid).usersHaveClosed = true ∧
    (removeUser room sid).availableNickNames = room.availableNickNames ∧
    u.nickname ∉ (removeUser room sid).availableNickNames ∧
    (∃ ns, getNickNamesMsg (removeUser room sid) = Msg.nickNames ns ∧
      u.nickname ∈ ns) ∧
    (∃ entries, getUsersMsg (removeUser room sid) = Msg.usersList entries ∧
      (u.nickname, u.points) ∈ entries) ∧
    sid ∈ broadcastRecipients (removeUser room sid) ∧
    sid ∉ ids (reapPass (removeUser room sid)).1.users ∧
    u.nickname ∈ (reapPass (removeUser room sid)).1.availableNickNames ∧
    ∃ recips, Event.broadcast recips (Msg.leave u.nickname) ∈
      (reapPass (removeUser room sid)).2 := by
  obtain ⟨l₁, l₂, heq, hk1, hk2, hset⟩ := findUser_decomp room.users sid u hfind hnodup
  have hrm : removeUser room sid =
      { room with
        users := setUser room.users sid { u with wsOpen := false },
        usersHaveClosed := true } := by
    simp [removeUser, hfind]
  have husers : (removeUser room sid).users =
      l₁ ++ (sid, { u with wsOpen := false }) :: l₂ := by
    rw [hrm]
    exact hset { u with wsOpen := false }
  have hids : ids (removeUser room sid).users = ids room.users := by
    rw [hrm]
    exact ids_setUser room.users sid _
  have hheld : held (removeUser room sid).users = held room.users := by
    rw [hrm]
    exact held_setUser_same room.users sid u _ hfind hnodup rfl
  have hmem_held : u.nickname ∈ held room.users := by
    rw [heq, held_append, held_cons]
    refine List.mem_append.mpr (Or.inr (List.mem_append.mpr (Or.inl ?_)))
    simp [contrib, hnick]
  have hflag : (removeUser room sid).usersHaveClosed = true := by rw [hrm]
  have hpool2 : (removeUser room sid).availableNickNames =
      room.availableNickNames := by rw [hrm]
  refine ⟨hids, ?_, hflag, hpool2, by rw [hpool2]; exact hpool, ?_, ?_, ?_, ?_, ?_, ?_⟩
  · rw [hrm]
    exact findUser_setUser room.users sid u _ hfind
  · refine ⟨(held (removeUser room sid).users).dedup, rfl, ?_⟩
    rw [hheld]
    exact List.mem_dedup.mpr hmem_held
  · refine ⟨_, rfl, ?_⟩
    refine List.mem_map.mpr ⟨(sid, { u with wsOpen := false }), ?_, rfl⟩
    refine List.mem_filter.mpr ⟨?_, by simp [hnick]⟩
    rw [husers]
    exact List.mem_append.mpr (Or.inr (List.mem_cons_self _ _))
  · show sid ∈ ids (removeUser room sid).users
    rw [hids]
    exact mem_ids_of_findUser room.users sid u hfind
  · have hu : (reapPass (removeUser room sid)).1.users =
        (removeUser room sid).users.filter (fun p => p.2.wsOpen) := by
      simp [reapPass, hflag, reapLoop_users]
    rw [hu, husers]
    intro hmem
    rw [List.filter_append, List.filter_cons] at hmem
    simp only [show (({ u with wsOpen := false } : User)).wsOpen = false from rfl,
      Bool.false_eq_true, if_false] at hmem
    rw [ids_append] at hmem
    rcases List.mem_append.mp hmem with hm | hm
    · obtain ⟨p, hp, hp1⟩ := List.mem_map.mp hm
      exact hk1 p (List.mem_of_mem_filter hp) hp1
    · obtain ⟨p, hp, hp1⟩ := List.mem_map.mp hm
      exact hk2 p (List.mem_of_mem_filter hp) hp1
  · have hp : (reapPass (removeUser room sid)).1.availableNickNames =
        (reapLoop [] (removeUser room sid).users
          (removeUser room sid).availableNickNames).2.1 := by
      simp [reapPass, hflag]
    rw [hp]
    apply reapLoop_pool_mem
    refine Or.inr ⟨(sid, { u with wsOpen := false }), ?_, rfl, rfl, hnick⟩
    rw [husers]
    exact List.mem_append.mpr (Or.inr (List.mem_cons_self _ _))
  · have hp : (reapPass (removeUser room sid)).2 =
        (reapLoop [] (removeUser room sid).users
          (removeUser room sid).availableNickNames).2.2 := by
      simp [reapPass, hflag]
    rw [hp]
    exact reapLoop_leave_mem (removeUser room sid).users []
      (removeUser room sid).availableNickNames sid { u with wsOpen := false }
      (by rw [husers]; exact List.mem_append.mpr (Or.inr (List.mem_cons_self _ _)))
      rfl hnick

/-- A room with one session holding "Alice" and one lurker, for
witnessing the deferred close-out. -/
def reapWitnessRoom : RoomState :=
  { freshRoom with
    users := [(1, { nickname := "Alice", wsOpen := true, lastTell := none, points := 0 }),
              (2, newUser)],
    nextSessionId := 3 }

/-- C10 witness: closing session 1 ("Alice") keeps it in the table and
in the broadcast snapshot; the following reap pass removes it, returns
"Alice" to the pool and broadcasts the Leave. -/
theorem close_then_reap_witness :
    (removeUser reapWitnessRoom 1).usersHaveClosed = true ∧
    1 ∈ broadcastRecipients (removeUser reapWitnessRoom 1) ∧
    1 ∉ ids (reapPass (removeUser reapWitnessRoom 1)).1.users ∧
    "Alice" ∈ (reapPass (removeUser reapWitnessRoom 1)).1.availableNickNames := by
  have h := close_then_reap reapWitnessRoom 1
    { nickname := "Alice", wsOpen := true, lastTell := none, points := 0 }
    (by decide) (by decide) (by decide) (by decide)
  exact ⟨h.2.2.1, h.2.2.2.2.2.2.2.1, h.2.2.2.2.2.2.2.2.1, h.2.2.2.2.2.2.2.2.2.1⟩

end WebServer
